import Mathlib

/-!
Verification development for the comp5313_assignment_2 analytical pipeline
(`src/utils.py`): event ingestion, per-day actor-pair aggregation, per-date
graph construction, graph metrics, rolling statistics and (lagged) distance
correlation bookkeeping.

The Python/polars/networkx code is shallowly embedded as executable Lean
functions over lists:
* polars DataFrames are lists of record structures;
* a polars `group_by` is modelled with keys in first-encounter order (polars
  does not guarantee an order; every result we rely on is either order
  insensitive or re-sorted by date downstream, as in the source);
* a polars `join` never matches null keys (the `join_nulls=False` default);
* Python floats are modelled by `ℚ`, plus an explicit `inf` constructor where
  the source stores `float('inf')`;
* operations that can raise (`None` arithmetic on a null polars aggregate,
  networkx on degenerate graphs) return `Option`;
* the external `dcor.distance_correlation` library call is an abstract
  function parameter: no claim depends on its values.
-/

namespace GHA

/-! ### Generic list helpers -/

/-- Fuel-driven worker for `firstKeys`; the fuel always dominates the list
length at every call site, so the zero-fuel branch is unreachable. -/
def firstKeysF {κ : Type} [DecidableEq κ] : Nat → List κ → List κ
  | _, [] => []
  | 0, _ :: _ => []
  | n + 1, k :: ks => k :: firstKeysF n (ks.filter (fun x => x != k))

/-- Keys of a grouping in first-encounter order, deduplicated.  Models the
observed key order of a polars `group_by` applied to the given key column. -/
def firstKeys {κ : Type} [DecidableEq κ] (l : List κ) : List κ :=
  firstKeysF l.length l

/-- Insertion step of the structural sort below. -/
def insertLe {α : Type} (le : α → α → Bool) (a : α) : List α → List α
  | [] => [a]
  | b :: l => if le a b then a :: b :: l else b :: insertLe le a l

/-- Insertion sort.  Models a polars `sort`: within equal keys polars promises
no order (`maintain_order=False` default), so any comparison sort is a
faithful model. -/
def sortLe {α : Type} (le : α → α → Bool) : List α → List α
  | [] => []
  | a :: l => insertLe le a (sortLe le l)

/-- The running accumulator of Python's `max(l, key=f)`: replaced only on a
strictly larger key, so the first element attaining the maximum wins. -/
def pyFold {α : Type} (f : α → ℚ) (a : α) (l : List α) : α :=
  l.foldl (fun best x => if f best < f x then x else best) a

/-- Python's `max(l, key=f)`; `none` models the `ValueError` raised on an
empty sequence. -/
def pyMaxBy {α : Type} (f : α → ℚ) : List α → Option α
  | [] => none
  | a :: l => some (pyFold f a l)

/-- All index pairs `i < j` of a list, enumerated exactly like the nested
loops `for i in range(n): for j in range(i+1, n)` of the source. -/
def upperPairsList {α : Type} : List α → List (α × α)
  | [] => []
  | x :: xs => (xs.map fun y => (x, y)) ++ upperPairsList xs

/-! ### Calendar dates and the three accepted datetime formats -/

/-- A calendar day, the result of `datetime.strptime(...).date()`. -/
structure Date where
  year : Nat
  month : Nat
  day : Nat
deriving DecidableEq

/-- Lexicographic order on calendar days. -/
def Date.le (d1 d2 : Date) : Bool :=
  d1.year < d2.year ||
    (d1.year == d2.year &&
      (d1.month < d2.month || (d1.month == d2.month && d1.day ≤ d2.day)))

/-- polars sorts null values first by default. -/
def optDateLe : Option Date → Option Date → Bool
  | none, _ => true
  | some _, none => false
  | some a, some b => Date.le a b

def digitVal (c : Char) : Option Nat :=
  if c.isDigit then some (c.toNat - 48) else none

/-- `%Y` in CPython's `_strptime` is exactly four digits. -/
def parse4Digits : List Char → Option (Nat × List Char)
  | c1 :: c2 :: c3 :: c4 :: rest =>
    match digitVal c1, digitVal c2, digitVal c3, digitVal c4 with
    | some a, some b, some c, some d => some (((a * 10 + b) * 10 + c) * 10 + d, rest)
    | _, _, _, _ => none
  | _ => none

def parse2Digits : List Char → Option (Nat × List Char)
  | c1 :: c2 :: rest =>
    match digitVal c1, digitVal c2 with
    | some a, some b => some (a * 10 + b, rest)
    | _, _ => none
  | _ => none

/-- A one-or-two digit field with an admissible value range, greedy on two
digits: mirrors the `_strptime` regex alternations such as `1[0-2]|0[1-9]|[1-9]`
(for `%m`) or `2[0-3]|[0-1]\d|\d` (for `%H`). -/
def parse2or1 (lo hi : Nat) : List Char → Option (Nat × List Char)
  | [] => none
  | [c1] =>
    match digitVal c1 with
    | some a => if lo ≤ a ∧ a ≤ hi then some (a, []) else none
    | none => none
  | c1 :: c2 :: rest =>
    match digitVal c1, digitVal c2 with
    | some a, some b =>
      if lo ≤ a * 10 + b ∧ a * 10 + b ≤ hi then some (a * 10 + b, rest)
      else if lo ≤ a ∧ a ≤ hi then some (a, c2 :: rest)
      else none
    | some a, none => if lo ≤ a ∧ a ≤ hi then some (a, c2 :: rest) else none
    | none, _ => none

def litChar (c : Char) : List Char → Option (List Char)
  | x :: rest => if x = c then some rest else none
  | [] => none

def isLeapYear (y : Nat) : Bool :=
  (y % 4 == 0 && y % 100 != 0) || y % 400 == 0

def daysInMonth (y m : Nat) : Nat :=
  if m = 2 then (if isLeapYear y then 29 else 28)
  else if m = 4 ∨ m = 6 ∨ m = 9 ∨ m = 11 then 30
  else 31

/-- `%Y sep %m sep %d`, including the calendar validation that
`datetime.strptime` performs when constructing the `datetime` (an out-of-range
day raises `ValueError`, which `_parse_mixed_datetime` treats as a failed
format). -/
def parseDateYmd (sep : Char) (cs : List Char) : Option (Date × List Char) := do
  let (y, cs) ← parse4Digits cs
  let cs ← litChar sep cs
  let (m, cs) ← parse2or1 1 12 cs
  let cs ← litChar sep cs
  let (d, cs) ← parse2or1 1 31 cs
  if 1 ≤ y ∧ d ≤ daysInMonth y m then return (⟨y, m, d⟩, cs) else none

/-- `%H:%M:%S`.  The time-of-day is discarded by `.date()`; only match
success matters.  Seconds 60/61 pass the regex but fail `datetime`
construction, so they are rejected here as well. -/
def parseTimeHMS (cs : List Char) : Option (List Char) := do
  let (_, cs) ← parse2or1 0 23 cs
  let cs ← litChar ':' cs
  let (_, cs) ← parse2or1 0 59 cs
  let cs ← litChar ':' cs
  let (_, cs) ← parse2or1 0 59 cs
  return cs

/-- Optional `:?\d\d` seconds tail of a `%z` offset; consumes nothing when it
does not match. -/
def parseTzSecondsTail (cs : List Char) : Nat × List Char :=
  match cs with
  | ':' :: c1 :: c2 :: rest =>
    match digitVal c1, digitVal c2 with
    | some a, some b => (a * 10 + b, rest)
    | _, _ => (0, cs)
  | c1 :: c2 :: rest =>
    match digitVal c1, digitVal c2 with
    | some a, some b => (a * 10 + b, rest)
    | _, _ => (0, cs)
  | _ => (0, cs)

/-- `%z`: `Z`, or a sign, two hour digits, an optional colon, two minute
digits, and an optional seconds tail; the resulting offset must be strictly
less than 24 hours or `datetime` construction raises. -/
def parseTzOffset : List Char → Option (List Char)
  | 'Z' :: rest => some rest
  | s :: rest =>
    if s = '+' || s = '-' then
      match parse2Digits rest with
      | some (hh, rest2) =>
        let rest3 := match rest2 with
          | ':' :: r => r
          | r => r
        match parse2Digits rest3 with
        | some (mm, rest4) =>
          let (ss, rest5) := parseTzSecondsTail rest4
          if hh * 3600 + mm * 60 + ss < 24 * 3600 then some rest5 else none
        | none => none
      | none => none
    else none
  | [] => none

/-- Format `"%Y-%m-%d %H:%M:%S"`. -/
def parseFormatLocal (s : String) : Option Date := do
  let (d, cs) ← parseDateYmd '-' s.data
  let cs ← litChar ' ' cs
  let cs ← parseTimeHMS cs
  if cs = [] then return d else none

/-- Format `"%Y-%m-%dT%H:%M:%S%z"`. -/
def parseFormatIso (s : String) : Option Date := do
  let (d, cs) ← parseDateYmd '-' s.data
  let cs ← litChar 'T' cs
  let cs ← parseTimeHMS cs
  let cs ← parseTzOffset cs
  if cs = [] then return d else none

/-- Format `"%Y/%m/%d %H:%M:%S %z"`. -/
def parseFormatSlash (s : String) : Option Date := do
  let (d, cs) ← parseDateYmd '/' s.data
  let cs ← litChar ' ' cs
  let cs ← parseTimeHMS cs
  let cs ← litChar ' ' cs
  let cs ← parseTzOffset cs
  if cs = [] then return d else none

/-- `_parse_mixed_datetime`: try the three formats in order, `None` when all
fail. -/
def parseMixedDatetime (s : String) : Option Date :=
  (parseFormatLocal s).orElse fun _ =>
    (parseFormatIso s).orElse fun _ => parseFormatSlash s

/-! ### Event ingestion (`read_csv_to_polars`) -/

/-- A raw CSV row under the fixed six-column schema. -/
structure RawRecord where
  repository : String
  event_date_str : String
  action : String
  object_type : String
  actor_id : String
  object_id : String
deriving DecidableEq

/-- A typed event after ingestion (`event_date_str` parsed and dropped). -/
structure Event where
  repository : String
  action : String
  object_type : String
  actor_id : String
  object_id : String
  event_date : Option Date
deriving DecidableEq

def issueLit : String := "issue"

def prLit : String := "pr"

/-- `str.to_lowercase()`, character-wise (ASCII case mapping, which is all the
pipeline's `object_type` values use). -/
def toLowerStr (s : String) : String :=
  ⟨s.data.map Char.toLower⟩

def startsWithList : List Char → List Char → Bool
  | _, [] => true
  | [], _ :: _ => false
  | c :: cs, p :: ps => c == p && startsWithList cs ps

/-- `str.starts_with`. -/
def strStartsWith (s p : String) : Bool :=
  startsWithList s.data p.data

/-- The `object_type` rewrite of `read_csv_to_polars`: `"issue"` when the
lower-cased raw value starts with `"issue"`, otherwise `"pr"`. -/
def normalizeObjectType (s : String) : String :=
  if strStartsWith (toLowerStr s) issueLit then issueLit else prLit

/-- `read_csv_to_polars`, from typed raw rows (CSV decoding is the external
I/O boundary): parse `event_date_str` via `_parse_mixed_datetime`, drop it,
then rewrite `object_type`. -/
def readCsvToPolars (rows : List RawRecord) : List Event :=
  rows.map fun r =>
    { repository := r.repository
      action := r.action
      object_type := normalizeObjectType r.object_type
      actor_id := r.actor_id
      object_id := r.object_id
      event_date := parseMixedDatetime r.event_date_str }

/-! ### `daily_event_count` -/

/-- One row of the grouped daily-count table. -/
structure CountRow where
  event_date : Option Date
  actor_id : String
  object_id : String
  object_type : String
  daily_event_count : Nat
deriving DecidableEq

/-- Lexicographic (code-point) comparison of character lists: the order
polars/Python use on UTF-8 strings. -/
def charListLt : List Char → List Char → Bool
  | _, [] => false
  | [], _ :: _ => true
  | c1 :: t1, c2 :: t2 => decide (c1 < c2) || (c1 == c2 && charListLt t1 t2)

def strLt (a b : String) : Bool := charListLt a.data b.data

def strLe (a b : String) : Bool := strLt a b || a == b

def cKey (e : Event) : Option Date × String × String × String :=
  (e.event_date, e.actor_id, e.object_id, e.object_type)

/-- Lexicographic comparison used by the final
`sort(["event_date", "actor_id", "object_id", "object_type"])`; polars places
nulls first. -/
def countRowSortLe (r1 r2 : CountRow) : Bool :=
  if r1.event_date != r2.event_date then optDateLe r1.event_date r2.event_date
  else if r1.actor_id != r2.actor_id then strLt r1.actor_id r2.actor_id
  else if r1.object_id != r2.object_id then strLt r1.object_id r2.object_id
  else strLe r1.object_type r2.object_type

/-- `daily_event_count`: group by `(event_date, actor_id, object_id,
object_type)` (a null date is an ordinary group key), count rows, sort. -/
def dailyEventCount (df : List Event) : List CountRow :=
  let keys := firstKeys (df.map cKey)
  let rows := keys.map fun k =>
    CountRow.mk k.1 k.2.1 k.2.2.1 k.2.2.2 ((df.filter fun e => cKey e == k).length)
  sortLe countRowSortLe rows

/-! ### Pair aggregation (`_create_actor_pairs_by_date_and_object`,
`prepare_df_to_graph`) -/

structure PairRow where
  event_date : Option Date
  object_id : String
  actor_id : String
  actor_id_2 : String
  total_daily_event_count : Nat
deriving DecidableEq

/-- The `on=["event_date", "object_id"]` inner-join condition.  A null
`event_date` never matches (polars `join_nulls=False` default). -/
def joinCond (r1 r2 : CountRow) : Bool :=
  r1.event_date.isSome && r1.event_date == r2.event_date && r1.object_id == r2.object_id

/-- Self-join on `(event_date, object_id)`, keep `actor_id < actor_id_2`,
add the two daily counts. -/
def createActorPairsByDateAndObject (df : List CountRow) : List PairRow :=
  let joined := df.flatMap fun r1 => (df.filter (joinCond r1)).map fun r2 => (r1, r2)
  let filtered := joined.filter fun rr => strLt rr.1.actor_id rr.2.actor_id
  filtered.map fun rr =>
    ⟨rr.1.event_date, rr.1.object_id, rr.1.actor_id, rr.2.actor_id,
      rr.1.daily_event_count + rr.2.daily_event_count⟩

/-- One aggregated pair row (the edge list consumed by the graph builder). -/
structure AggRow where
  event_date : Option Date
  actor_id : String
  actor_id_2 : String
  total_daily_event_count : Nat
deriving DecidableEq

def pKey (p : PairRow) : Option Date × String × String :=
  (p.event_date, p.actor_id, p.actor_id_2)

def aggRowDateLe (r1 r2 : AggRow) : Bool :=
  optDateLe r1.event_date r2.event_date

/-- The summed `total_daily_event_count` of the pair rows with group key
`k = (event_date, actor_id, actor_id_2)`: the `agg(... .sum())` of
`prepare_df_to_graph`. -/
def pairSumAt (pairs : List PairRow) (k : Option Date × String × String) : Nat :=
  ((pairs.filter fun p => pKey p == k).map (·.total_daily_event_count)).sum

/-- The optional `object_type` pre-filter shared by `prepare_df_to_graph` and
`rolling_window_stats`. -/
def typeFilter (et : Option String) (df : List CountRow) : List CountRow :=
  match et with
  | some t => df.filter fun r => r.object_type == t
  | none => df

/-- `prepare_df_to_graph`: optional type filter, self-join into pairs, group
by `(event_date, actor_id, actor_id_2)` summing `total_daily_event_count`,
sort ascending by date. -/
def prepareDfToGraph (df : List CountRow) (eventType : Option String) : List AggRow :=
  let df2 := typeFilter eventType df
  let pairs := createActorPairsByDateAndObject df2
  let keys := firstKeys (pairs.map pKey)
  let agg := keys.map fun k => AggRow.mk k.1 k.2.1 k.2.2 (pairSumAt pairs k)
  sortLe aggRowDateLe agg

/-! ### `rolling_window_stats` -/

structure DailyStat where
  event_date : Option Date
  daily_unique_actors : Nat
  daily_event_count : Nat
deriving DecidableEq

def countRowDateLe (r1 r2 : CountRow) : Bool :=
  optDateLe r1.event_date r2.event_date

/-- The `group_by("event_date").agg(n_unique(actor_id), sum(daily_event_count))`
step of `rolling_window_stats`, applied after the initial sort by date; group
keys appear in first-encounter order of the sorted frame. -/
def dailyStats (df : List CountRow) (et : Option String) : List DailyStat :=
  let df2 := typeFilter et df
  let sorted := sortLe countRowDateLe df2
  let keys := firstKeys (sorted.map (·.event_date))
  keys.map fun d =>
    let grp := sorted.filter fun r => r.event_date == d
    ⟨d, ((grp.map (·.actor_id)).dedup).length, (grp.map (·.daily_event_count)).sum⟩

/-- polars `rolling_sum(window_size=w)` with the default minimum-sample count
(equal to `w`): entry `i` is null until the window is full.  Only meaningful
for `1 ≤ w`; polars rejects a non-positive window size. -/
def rollingSum (w : Nat) (xs : List Nat) : List (Option Nat) :=
  (List.range xs.length).map fun i =>
    if w ≤ i + 1 then some (((xs.take (i + 1)).drop (i + 1 - w)).sum) else none

structure RollingRow where
  event_date : Option Date
  rolling_unique_actors : Option Nat
  rolling_event_count : Option Nat
deriving DecidableEq

def mkRollingRows : List DailyStat → List (Option Nat) → List (Option Nat) → List RollingRow
  | d :: ds, u :: us, c :: cs => ⟨d.event_date, u, c⟩ :: mkRollingRows ds us cs
  | _, _, _ => []

def rollingRowDateLe (r1 r2 : RollingRow) : Bool :=
  optDateLe r1.event_date r2.event_date

/-- `rolling_window_stats`: optional type filter, sort by date, group into
daily stats, rolling sums of window `windowDays` over both series, final sort
by date. -/
def rollingWindowStats (df : List CountRow) (et : Option String) (windowDays : Nat) :
    List RollingRow :=
  let daily := dailyStats df et
  let rows := mkRollingRows daily
    (rollingSum windowDays (daily.map (·.daily_unique_actors)))
    (rollingSum windowDays (daily.map (·.daily_event_count)))
  sortLe rollingRowDateLe rows

/-! ### Graphs (`create_graphs_by_date`) -/

/-- A networkx `Graph`: insertion-ordered node list, undirected edge list.
Edge weights are carried by the source but never read by any metric below, so
they are omitted. -/
structure Graph where
  nodes : List String
  edges : List (String × String)
deriving DecidableEq

def Graph.adjacent (g : Graph) (u v : String) : Bool :=
  g.edges.any fun e => (e.1 == u && e.2 == v) || (e.1 == v && e.2 == u)

/-- networkx degree; a self-loop contributes 2. -/
def Graph.degree (g : Graph) (v : String) : Nat :=
  (g.edges.filter fun e => e.1 == v).length + (g.edges.filter fun e => e.2 == v).length

def Graph.neighbors (g : Graph) (v : String) : List String :=
  g.nodes.filter fun u => u != v && g.adjacent u v

/-- `Graph.add_edge`: add the missing endpoints, then the edge unless already
present in either orientation. -/
def addEdge (g : Graph) (u v : String) : Graph :=
  let ns := if u ∈ g.nodes then g.nodes else g.nodes ++ [u]
  let ns2 := if v ∈ ns then ns else ns ++ [v]
  let es := if g.adjacent u v then g.edges else g.edges ++ [(u, v)]
  ⟨ns2, es⟩

def emptyGraph : Graph := ⟨[], []⟩

/-- `create_graphs_by_date`: one graph per distinct date (`unique().sort()`),
edges folded in row order. -/
def createGraphsByDate (df : List AggRow) : List (Option Date × Graph) :=
  let uniqueDates := sortLe optDateLe (firstKeys (df.map (·.event_date)))
  uniqueDates.map fun d =>
    (d, (df.filter fun r => r.event_date == d).foldl
          (fun g r => addEdge g r.actor_id r.actor_id_2) emptyGraph)

/-! ### Graph metrics (`calculate_graph_metrics` and helpers) -/

/-- Nodes within `n` hops of `v`. -/
def Graph.reach (g : Graph) (v : String) : Nat → List String
  | 0 => [v]
  | n + 1 =>
    let p := g.reach v n
    (p ++ p.flatMap fun w => g.nodes.filter fun u => g.adjacent w u).dedup

def Graph.connectedTo (g : Graph) (u v : String) : Bool :=
  decide (v ∈ g.reach u g.nodes.length)

/-- `nx.is_connected`; raises (`none`) on the null graph. -/
def Graph.isConnectedOpt (g : Graph) : Option Bool :=
  match g.nodes with
  | [] => none
  | v :: _ => some (g.nodes.all fun u => g.connectedTo v u)

/-- Shortest-path distance: the least hop count whose reach set contains the
target. -/
def Graph.dist (g : Graph) (u v : String) : Option Nat :=
  (List.range (g.nodes.length + 1)).find? fun d => decide (v ∈ g.reach u d)

/-- `nx.average_shortest_path_length`: raises on the null graph, `0` for a
single node, the mean of all-ordered-pair distances when connected, raises
when disconnected (the source only calls it on connected graphs). -/
def averageShortestPathLength (g : Graph) : Option ℚ :=
  let n := g.nodes.length
  if n = 0 then none
  else if n = 1 then some 0
  else
    match g.isConnectedOpt with
    | some true =>
      some (((g.nodes.flatMap fun u => g.nodes.map fun v => ((g.dist u v).getD 0 : ℚ)).sum) /
        ((n : ℚ) * ((n : ℚ) - 1)))
    | _ => none

/-- `nx.diameter`: the largest pairwise distance; raises (`none`) on the null
graph or a disconnected graph. -/
def Graph.eccDiameter (g : Graph) : Option Nat :=
  if g.nodes.length = 0 then none
  else
    match g.isConnectedOpt with
    | some true =>
      some ((g.nodes.flatMap fun u => g.nodes.map fun v => (g.dist u v).getD 0).foldl max 0)
    | _ => none

def Graph.triangleCount (g : Graph) (v : String) : Nat :=
  ((upperPairsList (g.neighbors v)).filter fun p => g.adjacent p.1 p.2).length

def Graph.localClustering (g : Graph) (v : String) : ℚ :=
  let k := (g.neighbors v).length
  if k < 2 then 0 else (2 * (g.triangleCount v : ℚ)) / ((k : ℚ) * ((k : ℚ) - 1))

/-- `nx.average_clustering` divides by the node count: `ZeroDivisionError`
(`none`) on the null graph. -/
def averageClustering (g : Graph) : Option ℚ :=
  if g.nodes.length = 0 then none
  else some (((g.nodes.map g.localClustering).sum) / (g.nodes.length : ℚ))

/-- `nx.density`: `0` when there are no edges or at most one node, else
`2m / (n(n-1))`. -/
def density (g : Graph) : ℚ :=
  let n := g.nodes.length
  let m := g.edges.length
  if m = 0 ∨ n ≤ 1 then 0 else 2 * (m : ℚ) / ((n : ℚ) * ((n : ℚ) - 1))

/-- `sum(degrees) / n if n > 0 else 0` — guarded in the source. -/
def averageDegree (g : Graph) : ℚ :=
  if 0 < g.nodes.length then
    ((g.nodes.map fun v => (g.degree v : ℚ)).sum) / (g.nodes.length : ℚ)
  else 0

def numberOfIsolatedNodes (g : Graph) : Nat :=
  (g.nodes.filter fun v => g.degree v == 0).length

/-- `nx.number_connected_components` via representatives collected in node
order. -/
def numberConnectedComponents (g : Graph) : Nat :=
  (g.nodes.foldl
    (fun reps v => if reps.any fun r => g.connectedTo r v then reps else reps ++ [v]) []).length

/-- polars `mean` of a column: null on an empty column. -/
def sampleMean (xs : List ℚ) : Option ℚ :=
  if xs.length = 0 then none else some (xs.sum / (xs.length : ℚ))

/-- polars `std` (ddof = 1), squared: the sample variance.  Null on a column
with at most one value. -/
def sampleVar (xs : List ℚ) : Option ℚ :=
  match sampleMean xs with
  | none => none
  | some m =>
    if xs.length ≤ 1 then none
    else some (((xs.map fun x => (x - m) ^ 2).sum) / ((xs.length : ℚ) - 1))

/-- Decides `x > m + 2·√v` (for `v ≥ 0`) in rational arithmetic: the
supernode threshold comparison `degree > mean + 2 * std` of the source, with
`v` the sample variance (so `√v` is the sample standard deviation). -/
def gtMeanPlus2Std (x m v : ℚ) : Bool :=
  m < x && 4 * v < (x - m) ^ 2

/-- `count_supernodes_by_degree`.  With at most one node the polars `std`
aggregate (and on an empty graph also `mean`) is null, and
`threshold = stats[0] + 2 * stats[1]` raises `TypeError` — modelled by
`none`. -/
def countSupernodesByDegree (g : Graph) : Option Nat :=
  let degs : List ℚ := g.nodes.map fun v => (g.degree v : ℚ)
  match sampleMean degs, sampleVar degs with
  | some m, some v => some ((degs.filter fun x => gtMeanPlus2Std x m v).length)
  | _, _ => none

/-- All simple paths from `cur` to `t` avoiding `vis`, with fuel. -/
def simplePathsAux (g : Graph) (t : String) : Nat → String → List String → List (List String)
  | 0, cur, _ => if cur = t then [[cur]] else []
  | fuel + 1, cur, vis =>
    if cur = t then [[cur]]
    else
      ((g.neighbors cur).filter fun u => decide (u ∉ vis)).flatMap fun u =>
        (simplePathsAux g t fuel u (u :: vis)).map fun p => cur :: p

def Graph.simplePaths (g : Graph) (s t : String) : List (List String) :=
  simplePathsAux g t g.nodes.length s [s]

/-- Number of shortest `s`–`t` paths. -/
def Graph.sigma (g : Graph) (s t : String) : Nat :=
  let ps := g.simplePaths s t
  let ml := (ps.map List.length).foldl min (g.nodes.length + 1)
  (ps.filter fun p => p.length == ml).length

/-- Number of shortest `s`–`t` paths passing through `w`. -/
def Graph.sigmaThrough (g : Graph) (s t w : String) : Nat :=
  let ps := g.simplePaths s t
  let ml := (ps.map List.length).foldl min (g.nodes.length + 1)
  (ps.filter fun p => p.length == ml && decide (w ∈ p)).length

/-- `nx.betweenness_centrality` (default normalization) computed by explicit
shortest-path enumeration.  No claim depends on these values; only the shape
of the resulting column matters. -/
def Graph.betweenness (g : Graph) (v : String) : ℚ :=
  let n := g.nodes.length
  let raw : ℚ :=
    ((upperPairsList (g.nodes.filter fun u => u != v)).map fun p =>
      if g.sigma p.1 p.2 = 0 then (0 : ℚ)
      else (g.sigmaThrough p.1 p.2 v : ℚ) / (g.sigma p.1 p.2 : ℚ)).sum
  if 2 < n then raw / ((((n : ℚ) - 1) * ((n : ℚ) - 2)) / 2) else raw

/-- `count_supernodes_by_betweenness`: same null-`std` failure mode as the
degree variant. -/
def countSupernodesByBetweenness (g : Graph) : Option Nat :=
  let bs : List ℚ := g.nodes.map g.betweenness
  match sampleMean bs, sampleVar bs with
  | some m, some v => some ((bs.filter fun x => gtMeanPlus2Std x m v).length)
  | _, _ => none

/-- A metric cell: a finite float or the `float('inf')` sentinel. -/
inductive Val where
  | fin (q : ℚ)
  | inf
deriving DecidableEq

/-- IEEE addition restricted to the values that occur here (no `-inf`, so no
NaN): infinity is absorbing. -/
def Val.add : Val → Val → Val
  | .fin a, .fin b => .fin (a + b)
  | _, _ => .inf

def Val.divNat : Val → Nat → Val
  | .fin q, n => .fin (q / (n : ℚ))
  | .inf, _ => .inf

def sumVal (l : List Val) : Val := l.foldl Val.add (Val.fin 0)

def meanVal (l : List Val) : Val := (sumVal l).divNat l.length

/-- The record built by `calculate_graph_metrics`. -/
structure GraphMetrics where
  number_of_nodes : Nat
  number_of_edges : Nat
  average_clustering : ℚ
  density : ℚ
  average_degree : ℚ
  number_of_isolated_nodes : Nat
  number_of_connected_components : Nat
  number_of_supernodes_by_degree : Nat
  number_of_supernodes_by_betweenness : Nat
  average_shortest_path_length : Val
  diameter : Val
deriving DecidableEq

/-- `calculate_graph_metrics`: `none` when any constituent raises.
`average_shortest_path_length` and `diameter` are computed only on connected
graphs and are `float('inf')` otherwise. -/
def calculateGraphMetrics (g : Graph) : Option GraphMetrics :=
  match averageClustering g, countSupernodesByDegree g, countSupernodesByBetweenness g,
      g.isConnectedOpt with
  | some ac, some sd, some sb, some conn =>
    let asplV : Option Val :=
      if conn then (averageShortestPathLength g).map Val.fin else some Val.inf
    let diamV : Option Val :=
      if conn then g.eccDiameter.map (fun (k : Nat) => Val.fin (k : ℚ)) else some Val.inf
    match asplV, diamV with
    | some av, some dv =>
      some ⟨g.nodes.length, g.edges.length, ac, density g, averageDegree g,
        numberOfIsolatedNodes g, numberConnectedComponents g, sd, sb, av, dv⟩
    | _, _ => none
  | _, _, _, _ => none

/-! ### `graphs_metrics_to_dataframe` -/

/-- The metrics table: a date column plus one named column per metric. -/
structure MetricsDF where
  event_date : List (Option Date)
  cols : List (String × List Val)
deriving DecidableEq

/-- polars `rolling_mean(window_size=w, min_samples=1)`: entry `i` is the
mean of the trailing window clipped at the start of the column, so it is
defined for every row. -/
def rollingMeanVal (w : Nat) (xs : List Val) : List Val :=
  (List.range xs.length).map fun i => meanVal ((xs.take (i + 1)).drop (i + 1 - w))

/-- The metric columns, in the order the source dict builds them. -/
def metricsColSpec : List (String × (GraphMetrics → Val)) :=
  [("number_of_nodes", fun m => Val.fin (m.number_of_nodes : ℚ)),
   ("number_of_edges", fun m => Val.fin (m.number_of_edges : ℚ)),
   ("average_clustering", fun m => Val.fin m.average_clustering),
   ("density", fun m => Val.fin m.density),
   ("average_degree", fun m => Val.fin m.average_degree),
   ("number_of_isolated_nodes", fun m => Val.fin (m.number_of_isolated_nodes : ℚ)),
   ("number_of_connected_components", fun m => Val.fin (m.number_of_connected_components : ℚ)),
   ("number_of_supernodes_by_degree", fun m => Val.fin (m.number_of_supernodes_by_degree : ℚ)),
   ("number_of_supernodes_by_betweenness",
     fun m => Val.fin (m.number_of_supernodes_by_betweenness : ℚ)),
   ("average_shortest_path_length", fun m => m.average_shortest_path_length),
   ("diameter", fun m => m.diameter)]

def dgDateLe (a b : Option Date × GraphMetrics) : Bool := optDateLe a.1 b.1

/-- `graphs_metrics_to_dataframe`: metrics per date (propagating any raise),
sort by date, and when `smoothing_period_days > 1` replace every metric
column by its partial-window trailing rolling mean. -/
def graphsMetricsToDataframe (gbd : List (Option Date × Graph)) (smoothingPeriodDays : Nat) :
    Option MetricsDF :=
  match gbd.mapM (fun p => (calculateGraphMetrics p.2).map fun m => (p.1, m)) with
  | none => none
  | some recs0 =>
    let recs := sortLe dgDateLe recs0
    let df : MetricsDF :=
      ⟨recs.map (·.1), metricsColSpec.map fun c => (c.1, recs.map fun r => c.2 r.2)⟩
    if 1 < smoothingPeriodDays then
      some ⟨df.event_date, df.cols.map fun c => (c.1, rollingMeanVal smoothingPeriodDays c.2)⟩
    else some df

/-! ### Distance-correlation bookkeeping (`distance_correlation_dataframe`,
`lagged_distance_correlation_all_pairs`,
`best_lagged_distance_correlation_per_pair`) -/

/-- A polars column: numeric (the only dtype the correlation code keeps) or
anything else. -/
inductive ColVals where
  | numeric (xs : List ℚ)
  | strCol (xs : List String)
deriving DecidableEq

/-- An input table for the correlation functions. -/
structure PDF where
  cols : List (String × ColVals)
deriving DecidableEq

def isNumericCol : ColVals → Bool
  | .numeric _ => true
  | _ => false

/-- `[col for col, dtype in zip(df.columns, df.dtypes) if dtype.is_numeric()]`. -/
def numericCols (df : PDF) : List String :=
  (df.cols.filter fun c => isNumericCol c.2).map (·.1)

/-- `df[col].to_numpy()` for a numeric column name. -/
def getCol (df : PDF) (nm : String) : List ℚ :=
  match df.cols.find? fun c => c.1 == nm with
  | some (_, .numeric xs) => xs
  | _ => []

/-- `distance_correlation_dataframe` with the external
`dcor.distance_correlation` abstracted as `F`: one computed coefficient per
unordered pair, appended in both orientations, plus a literal `1.0` self-pair
per numeric column. -/
def distanceCorrelationDataframe (F : List ℚ → List ℚ → ℚ) (df : PDF) :
    List (String × String × ℚ) :=
  ((upperPairsList (numericCols df)).flatMap fun p =>
    let d := F (getCol df p.1) (getCol df p.2)
    [(p.1, p.2, d), (p.2, p.1, d)]) ++
  (numericCols df).map fun c => (c, c, (1 : ℚ))

/-- The inner `for lag in range(-max_lag, max_lag + 1)` loop, with Python's
negative-index slicing spelled out as `take`/`drop`. -/
def laggedPairList (F : List ℚ → List ℚ → ℚ) (x y : List ℚ) (maxLag : Nat) :
    List (Int × ℚ) :=
  (List.range (2 * maxLag + 1)).map fun (i : Nat) =>
    let lag : Int := (i : Int) - (maxLag : Int)
    if lag < 0 then (lag, F (x.take (x.length - lag.natAbs)) (y.drop lag.natAbs))
    else if 0 < lag then (lag, F (x.drop lag.natAbs) (y.take (y.length - lag.natAbs)))
    else (lag, F x y)

/-- `lagged_distance_correlation_all_pairs`: pair → ordered lag list. -/
def laggedDistanceCorrelationAllPairs (F : List ℚ → List ℚ → ℚ) (df : PDF) (maxLag : Nat) :
    List ((String × String) × List (Int × ℚ)) :=
  (upperPairsList (numericCols df)).map fun p =>
    (p, laggedPairList F (getCol df p.1) (getCol df p.2) maxLag)

/-- `best_lagged_distance_correlation_per_pair`: Python `max` with
`key=lambda t: t[1]` over each pair's lag list. -/
def bestLaggedDistanceCorrelationPerPair (F : List ℚ → List ℚ → ℚ) (df : PDF) (maxLag : Nat) :
    List ((String × String) × Option (Int × ℚ)) :=
  (laggedDistanceCorrelationAllPairs F df maxLag).map fun pr =>
    (pr.1, pyMaxBy (fun t => t.2) pr.2)

/-! ### Spec-side definitions used for refinement-style comparison -/

/-- An actor's daily event count for one `(date, object)` group: the summed
`daily_event_count` of that actor's rows there. -/
def actorDailyCount (df : List CountRow) (d : Option Date) (a o : String) : Nat :=
  ((df.filter fun r => r.event_date == d && r.actor_id == a && r.object_id == o).map
    (·.daily_event_count)).sum

def hasRow (df : List CountRow) (d : Option Date) (a o : String) : Bool :=
  df.any fun r => r.event_date == d && r.actor_id == a && r.object_id == o

/-- Modelled from the spec's words: the pair weight is "the sum of the two
actors' event counts for that object/date", summed "across all objects
sharing the same (date, actor_a, actor_b)" — i.e. over the objects on which
both actors have events that day. -/
def specPairWeight (df : List CountRow) (d : Option Date) (a b : String) : Nat :=
  ((firstKeys (df.map (·.object_id))).map fun o =>
    if hasRow df d a o ∧ hasRow df d b o then actorDailyCount df d a o + actorDailyCount df d b o
    else 0).sum

/-- At most one row per `(date, actor, object)` triple: satisfied by any
`daily_event_count` output restricted to a single `object_type` (e.g. after
the `event_type` filter). -/
def AtMostOnePerActorObjectDay (df : List CountRow) : Prop :=
  ∀ d a o, (df.filter fun r => r.event_date == d && r.actor_id == a && r.object_id == o).length ≤ 1


/-! ### Concrete fixtures used by the closed witness theorems below -/

def d0101 : Date := ⟨2024, 1, 1⟩

def d0102 : Date := ⟨2024, 1, 2⟩

def wRawIssue : RawRecord :=
  ⟨"octo/repo", "2014-09-08 11:55:49", "opened", "IssuesEvent", "u1", "o1"⟩

def wRawBad : RawRecord :=
  ⟨"octo/repo", "not a date", "opened", "PullRequestEvent", "u2", "o1"⟩

def wCountRows : List CountRow :=
  [⟨some d0101, "a", "o1", "pr", 2⟩, ⟨some d0101, "b", "o1", "pr", 3⟩,
   ⟨some d0102, "a", "o1", "pr", 1⟩]

def wCountRows7 : List CountRow :=
  [⟨some d0101, "a", "o1", "pr", 2⟩, ⟨some d0102, "b", "o1", "pr", 3⟩]

def wC3rows : List CountRow :=
  [⟨some d0101, "a", "o1", "issue", 1⟩, ⟨some d0101, "a", "o1", "pr", 1⟩,
   ⟨some d0101, "b", "o1", "issue", 1⟩]

def wGbd : List (Option Date × Graph) :=
  [(some d0101, ⟨["a", "b"], [("a", "b")]⟩)]

/-- The unsmoothed metrics table of `wGbd` (extracted with a default that is
never used: the table exists, as the witness proof checks). -/
def wDf0 : MetricsDF :=
  (graphsMetricsToDataframe wGbd 0).getD (MetricsDF.mk [] [])

def wDcorF : List ℚ → List ℚ → ℚ := fun x _ => (x.length : ℚ)

def wPdf : PDF :=
  ⟨[("ua", ColVals.numeric [0, 0]), ("ec", ColVals.numeric [1, 1])]⟩

def wLcs : List (Int × ℚ) := [(-1, 1), (0, 2), (1, 1)]

/-! ### Helper lemmas: `firstKeys` -/

theorem firstKeysF_nil {κ : Type} [DecidableEq κ] (n : Nat) :
    firstKeysF n ([] : List κ) = [] := by
  cases n <;> rfl

theorem firstKeysF_eq {κ : Type} [DecidableEq κ] :
    ∀ (n m : Nat) (l : List κ), l.length ≤ n → l.length ≤ m →
      firstKeysF n l = firstKeysF m l := by
  intro n
  induction n with
  | zero =>
    intro m l hn _
    have : l = [] := List.length_eq_zero.mp (Nat.le_zero.mp hn)
    subst this
    rw [firstKeysF_nil, firstKeysF_nil]
  | succ n ih =>
    intro m l hn hm
    match l, m with
    | [], _ => rw [firstKeysF_nil, firstKeysF_nil]
    | k :: ks, m + 1 =>
      rw [firstKeysF, firstKeysF]
      have hf := List.length_filter_le (fun x => x != k) ks
      simp only [List.length_cons] at hn hm
      rw [ih m (ks.filter fun x => x != k) (by omega) (by omega)]

theorem firstKeys_cons {κ : Type} [DecidableEq κ] (k : κ) (ks : List κ) :
    firstKeys (k :: ks) = k :: firstKeys (ks.filter fun x => x != k) := by
  show firstKeysF (ks.length + 1) (k :: ks) = _
  rw [firstKeysF]
  unfold firstKeys
  rw [firstKeysF_eq ks.length (ks.filter fun x => x != k).length
    (ks.filter fun x => x != k) (List.length_filter_le _ _) le_rfl]

theorem mem_firstKeys_aux {κ : Type} [DecidableEq κ] :
    ∀ (n : Nat) (l : List κ), l.length ≤ n → ∀ a : κ, (a ∈ firstKeys l ↔ a ∈ l) := by
  intro n
  induction n with
  | zero =>
    intro l hl a
    have : l = [] := List.length_eq_zero.mp (Nat.le_zero.mp hl)
    subst this
    simp [firstKeys, firstKeysF]
  | succ n ih =>
    intro l hl a
    match l with
    | [] => simp [firstKeys, firstKeysF]
    | k :: ks =>
      rw [firstKeys_cons]
      have hlen : (ks.filter fun x => x != k).length ≤ n := by
        have := List.length_filter_le (fun x => x != k) ks
        simp only [List.length_cons] at hl
        omega
      simp only [List.mem_cons, ih _ hlen a, List.mem_filter, bne_iff_ne, ne_eq]
      by_cases h : a = k <;> simp [h]

theorem mem_firstKeys {κ : Type} [DecidableEq κ] (l : List κ) (a : κ) :
    a ∈ firstKeys l ↔ a ∈ l :=
  mem_firstKeys_aux l.length l le_rfl a

theorem firstKeys_sublist_aux {κ : Type} [DecidableEq κ] :
    ∀ (n : Nat) (l : List κ), l.length ≤ n → (firstKeys l).Sublist l := by
  intro n
  induction n with
  | zero =>
    intro l hl
    have : l = [] := List.length_eq_zero.mp (Nat.le_zero.mp hl)
    subst this
    simp [firstKeys, firstKeysF]
  | succ n ih =>
    intro l hl
    match l with
    | [] => simp [firstKeys, firstKeysF]
    | k :: ks =>
      rw [firstKeys_cons]
      have hlen : (ks.filter fun x => x != k).length ≤ n := by
        have := List.length_filter_le (fun x => x != k) ks
        simp only [List.length_cons] at hl
        omega
      exact ((ih _ hlen).trans (List.filter_sublist ks)).cons₂ k

theorem firstKeys_sublist {κ : Type} [DecidableEq κ] (l : List κ) :
    (firstKeys l).Sublist l :=
  firstKeys_sublist_aux l.length l le_rfl

theorem nodup_firstKeys_aux {κ : Type} [DecidableEq κ] :
    ∀ (n : Nat) (l : List κ), l.length ≤ n → (firstKeys l).Nodup := by
  intro n
  induction n with
  | zero =>
    intro l hl
    have : l = [] := List.length_eq_zero.mp (Nat.le_zero.mp hl)
    subst this
    simp [firstKeys, firstKeysF]
  | succ n ih =>
    intro l hl
    match l with
    | [] => simp [firstKeys, firstKeysF]
    | k :: ks =>
      rw [firstKeys_cons]
      have hlen : (ks.filter fun x => x != k).length ≤ n := by
        have := List.length_filter_le (fun x => x != k) ks
        simp only [List.length_cons] at hl
        omega
      refine List.Nodup.cons ?_ (ih _ hlen)
      intro hk
      have := (mem_firstKeys _ _).mp hk
      simp [List.mem_filter] at this

theorem nodup_firstKeys {κ : Type} [DecidableEq κ] (l : List κ) : (firstKeys l).Nodup :=
  nodup_firstKeys_aux l.length l le_rfl

/-! ### Helper lemmas: the structural sort -/

theorem insertLe_perm {α : Type} (le : α → α → Bool) (a : α) :
    ∀ (l : List α), (insertLe le a l).Perm (a :: l) := by
  intro l
  induction l with
  | nil => simp [insertLe]
  | cons b t ih =>
    rw [insertLe]
    by_cases h : le a b = true
    · rw [if_pos h]
    · rw [if_neg h]
      exact (ih.cons b).trans (List.Perm.swap a b t)

theorem sortLe_perm {α : Type} (le : α → α → Bool) :
    ∀ (l : List α), (sortLe le l).Perm l := by
  intro l
  induction l with
  | nil => simp [sortLe]
  | cons a t ih =>
    rw [sortLe]
    exact (insertLe_perm le a (sortLe le t)).trans (ih.cons a)

theorem mem_sortLe {α : Type} (le : α → α → Bool) (l : List α) (a : α) :
    a ∈ sortLe le l ↔ a ∈ l :=
  (sortLe_perm le l).mem_iff

theorem mem_insertLe {α : Type} (le : α → α → Bool) (a : α) (l : List α) (x : α) :
    x ∈ insertLe le a l ↔ x = a ∨ x ∈ l := by
  rw [(insertLe_perm le a l).mem_iff]
  simp

theorem insertLe_pairwise {α : Type} (le : α → α → Bool)
    (htr : ∀ x y z, le x y = true → le y z = true → le x z = true)
    (hto : ∀ x y, le x y = true ∨ le y x = true) (a : α) :
    ∀ (l : List α), l.Pairwise (fun x y => le x y = true) →
      (insertLe le a l).Pairwise (fun x y => le x y = true) := by
  intro l
  induction l with
  | nil => intro _; simp [insertLe]
  | cons b t ih =>
    intro hp
    obtain ⟨hb, ht⟩ := List.pairwise_cons.mp hp
    rw [insertLe]
    by_cases h : le a b = true
    · rw [if_pos h]
      refine List.pairwise_cons.mpr ⟨?_, hp⟩
      intro y hy
      rcases List.mem_cons.mp hy with rfl | hy2
      · exact h
      · exact htr a b y h (hb y hy2)
    · rw [if_neg h]
      refine List.pairwise_cons.mpr ⟨?_, ih ht⟩
      intro y hy
      rcases (mem_insertLe le a t y).mp hy with rfl | hy2
      · rcases hto y b with hyb | hby
        · exact absurd hyb h
        · exact hby
      · exact hb y hy2

theorem sortLe_pairwise {α : Type} (le : α → α → Bool)
    (htr : ∀ x y z, le x y = true → le y z = true → le x z = true)
    (hto : ∀ x y, le x y = true ∨ le y x = true) :
    ∀ (l : List α), (sortLe le l).Pairwise (fun x y => le x y = true) := by
  intro l
  induction l with
  | nil => simp [sortLe]
  | cons a t ih =>
    rw [sortLe]
    exact insertLe_pairwise le htr hto a (sortLe le t) ih

theorem sortLe_of_pairwise {α : Type} (le : α → α → Bool) :
    ∀ (l : List α), l.Pairwise (fun x y => le x y = true) → sortLe le l = l := by
  intro l
  induction l with
  | nil => intro _; rfl
  | cons a t ih =>
    intro hp
    obtain ⟨ha, ht⟩ := List.pairwise_cons.mp hp
    rw [sortLe, ih ht]
    match t, ha with
    | [], _ => rfl
    | b :: t2, ha =>
      rw [insertLe, if_pos (ha b (List.mem_cons_self b t2))]

/-! ### Helper lemmas: sums over filters, maps and flat-maps -/

theorem sum_map_filter_compl {α : Type} (p : α → Bool) (f : α → ℕ) :
    ∀ (l : List α),
    ((l.filter p).map f).sum + ((l.filter fun a => !p a).map f).sum = (l.map f).sum := by
  intro l
  induction l with
  | nil => simp
  | cons a t ih =>
    by_cases h : p a = true
    · simp only [List.filter_cons, h, Bool.not_true, if_true, if_false, List.map_cons,
        List.sum_cons, Bool.false_eq_true]
      omega
    · have h' : p a = false := by simpa using h
      simp only [List.filter_cons, h', Bool.not_false, if_true, if_false, List.map_cons,
        List.sum_cons, Bool.false_eq_true]
      omega

theorem sum_map_filter_eq_of_vanish {α : Type} (p : α → Bool) (f : α → ℕ) :
    ∀ (l : List α), (∀ a ∈ l, p a = false → f a = 0) →
    ((l.filter p).map f).sum = (l.map f).sum := by
  intro l
  induction l with
  | nil => simp
  | cons a t ih =>
    intro h
    by_cases hp : p a = true
    · simp only [List.filter_cons, hp, if_pos, List.map_cons, List.sum_cons]
      rw [ih fun b hb => h b (List.mem_cons_of_mem a hb)]
    · have hp' : p a = false := by simpa using hp
      simp only [List.filter_cons, hp', Bool.false_eq_true, if_false, List.map_cons,
        List.sum_cons]
      rw [ih fun b hb => h b (List.mem_cons_of_mem a hb), h a (List.mem_cons_self a t) hp']
      omega

theorem sum_map_flatMap {α β : Type} (g : α → List β) (f : β → ℕ) :
    ∀ (l : List α),
    ((l.flatMap g).map f).sum = (l.map fun a => ((g a).map f).sum).sum := by
  intro l
  induction l with
  | nil => simp
  | cons a t ih => simp [List.flatMap_cons, List.map_append, List.sum_append, ih]

theorem sum_map_ite_filter {α : Type} (p : α → Bool) (f : α → ℕ) :
    ∀ (l : List α),
    ((l.filter p).map f).sum = (l.map fun a => if p a then f a else 0).sum := by
  intro l
  induction l with
  | nil => simp
  | cons a t ih =>
    by_cases h : p a = true
    · simp [List.filter_cons, h, ih]
    · have h' : p a = false := by simpa using h
      simp [List.filter_cons, h', ih]

/-- Partition a sum according to the distinct values of a key function,
enumerated in first-encounter order. -/
theorem sum_partition_firstKeys {α κ : Type} [DecidableEq κ] (key : α → κ) (f : α → ℕ) :
    ∀ (n : ℕ) (l : List α), l.length ≤ n →
    (l.map f).sum =
      ((firstKeys (l.map key)).map fun k =>
        ((l.filter fun a => key a == k).map f).sum).sum := by
  intro n
  induction n with
  | zero =>
    intro l hl
    have : l = [] := List.length_eq_zero.mp (Nat.le_zero.mp hl)
    subst this; simp [firstKeys]
  | succ n ih =>
    intro l hl
    match l with
    | [] => simp [firstKeys]
    | a :: t =>
      have hmapfk : firstKeys ((a :: t).map key) =
          key a :: firstKeys ((t.filter fun b => key b != key a).map key) := by
        rw [List.map_cons, firstKeys_cons, List.filter_map]
        rfl
      rw [hmapfk]
      simp only [List.map_cons, List.sum_cons]
      -- the group of `key a` picks up `a` itself
      have hgrp : ((a :: t).filter fun x => key x == key a) =
          a :: (t.filter fun x => key x == key a) := by
        simp [List.filter_cons]
      -- groups of other keys ignore `a` and live inside the residual list
      have hrest : ∀ k ∈ firstKeys ((t.filter fun b => key b != key a).map key),
          ((a :: t).filter fun x => key x == k) =
            ((t.filter fun b => key b != key a).filter fun x => key x == k) := by
        intro k hk
        have hkmem := (mem_firstKeys _ _).mp hk
        obtain ⟨b, hb, hbk⟩ := List.mem_map.mp hkmem
        have hkne : k ≠ key a := by
          have := (List.mem_filter.mp hb).2
          rw [← hbk]
          simpa using this
        rw [List.filter_filter]
        rw [List.filter_cons]
        have : (key a == k) = false := by
          simp [beq_iff_eq]
          exact fun h => hkne h.symm
        rw [if_neg (by simp [this])]
        refine (List.filter_congr ?_).symm
        intro x _
        by_cases hx : key x = k
        · simp [hx, hkne]
        · simp [hx]
      have hlen : (t.filter fun b => key b != key a).length ≤ n := by
        have := List.length_filter_le (fun b => key b != key a) t
        simp only [List.length_cons] at hl
        omega
      have ihres := ih (t.filter fun b => key b != key a) hlen
      have hcongr :
          (firstKeys ((t.filter fun b => key b != key a).map key)).map
              (fun k => (((a :: t).filter fun x => key x == k).map f).sum) =
          (firstKeys ((t.filter fun b => key b != key a).map key)).map
              (fun k => ((((t.filter fun b => key b != key a)).filter
                  fun x => key x == k).map f).sum) := by
        refine List.map_congr_left ?_
        intro k hk
        rw [hrest k hk]
      rw [hcongr, ← ihres, hgrp]
      simp only [List.map_cons, List.sum_cons]
      have hsplit := sum_map_filter_compl (fun x => key x == key a) f t
      have hbne : (t.filter fun b => key b != key a) = t.filter fun b => !(key b == key a) := by
        refine List.filter_congr ?_
        intro x _
        simp [bne]
      rw [hbne]
      omega

/-! ### Helper lemmas: date orders -/

theorem dateLe_iff {a b : Date} :
    Date.le a b = true ↔
      (a.year < b.year ∨ (a.year = b.year ∧
        (a.month < b.month ∨ (a.month = b.month ∧ a.day ≤ b.day)))) := by
  simp [Date.le, Bool.or_eq_true, Bool.and_eq_true, beq_iff_eq, decide_eq_true_iff]

theorem dateLe_trans {a b c : Date} (h1 : Date.le a b = true) (h2 : Date.le b c = true) :
    Date.le a c = true := by
  rw [dateLe_iff] at h1 h2 ⊢
  omega

theorem dateLe_total (a b : Date) : Date.le a b = true ∨ Date.le b a = true := by
  rw [dateLe_iff, dateLe_iff]
  omega

theorem optDateLe_trans {a b c : Option Date} (h1 : optDateLe a b = true)
    (h2 : optDateLe b c = true) : optDateLe a c = true := by
  match a, b, c with
  | none, _, _ => rfl
  | some _, none, _ => simp [optDateLe] at h1
  | some _, some _, none => simp [optDateLe] at h2
  | some x, some y, some z => exact dateLe_trans h1 h2

theorem optDateLe_total (a b : Option Date) : optDateLe a b = true ∨ optDateLe b a = true := by
  match a, b with
  | none, _ => left; rfl
  | some _, none => right; rfl
  | some x, some y => exact dateLe_total x y

/-! ### Helper lemmas: Python `max` keeps the first maximum -/

theorem pyFold_spec {α : Type} (f : α → ℚ) :
    ∀ (l : List α) (a : α),
    ∃ l1 l2, a :: l = l1 ++ pyFold f a l :: l2 ∧
      (∀ y ∈ l1, f y < f (pyFold f a l)) ∧ (∀ y ∈ l2, f y ≤ f (pyFold f a l)) := by
  intro l
  induction l with
  | nil =>
    intro a
    exact ⟨[], [], rfl, by simp, by simp⟩
  | cons x t ih =>
    intro a
    by_cases h : f a < f x
    · have hfold : pyFold f a (x :: t) = pyFold f x t := by
        simp [pyFold, List.foldl_cons, if_pos h]
      obtain ⟨l1, l2, heq, h1, h2⟩ := ih x
      rw [hfold]
      match l1, heq with
      | [], heq =>
        have hm : x = pyFold f x t := by simpa using congrArg (fun w => w.head?) heq
        refine ⟨[a], l2, ?_, ?_, h2⟩
        · simpa using heq
        · intro y hy
          simp only [List.mem_singleton] at hy
          subst hy
          calc f y < f x := h
            _ = f (pyFold f x t) := by rw [← hm]
      | c :: l1', heq =>
        have hc : c = x := by simpa using (congrArg (fun w => w.head?) heq).symm
        have htail : t = l1' ++ pyFold f x t :: l2 := by
          simpa using congrArg List.tail heq
        refine ⟨a :: c :: l1', l2, ?_, ?_, h2⟩
        · rw [List.cons_append, ← heq]
        · intro y hy
          rcases List.mem_cons.mp hy with rfl | hy2
          · have hx2 : f x < f (pyFold f x t) := by
              have := h1 c (List.mem_cons_self c l1')
              rwa [hc] at this
            exact h.trans hx2
          · exact h1 y hy2
    · have hfold : pyFold f a (x :: t) = pyFold f a t := by
        simp [pyFold, List.foldl_cons, if_neg h]
      obtain ⟨l1, l2, heq, h1, h2⟩ := ih a
      rw [hfold]
      match l1, heq with
      | [], heq =>
        have hm : a = pyFold f a t := by simpa using congrArg (fun w => w.head?) heq
        have htail : t = l2 := by simpa using congrArg List.tail heq
        refine ⟨[], x :: t, by simpa using hm, by simp, ?_⟩
        intro y hy
        rcases List.mem_cons.mp hy with rfl | hy2
        · rw [← hm]; exact le_of_not_lt h
        · rw [htail] at hy2; exact h2 y hy2
      | c :: l1', heq =>
        have hc : c = a := by simpa using (congrArg (fun w => w.head?) heq).symm
        have htail : t = l1' ++ pyFold f a t :: l2 := by
          simpa using congrArg List.tail heq
        have hfa : f a < f (pyFold f a t) := h1 c (List.mem_cons_self c l1') |>.trans_eq' (by rw [hc])
        refine ⟨a :: x :: l1', l2, ?_, ?_, h2⟩
        · rw [List.cons_append, List.cons_append]
          exact congrArg (List.cons a) (congrArg (List.cons x) htail)
        intro y hy
        rcases List.mem_cons.mp hy with rfl | hy2
        · exact hfa
        · rcases List.mem_cons.mp hy2 with rfl | hy3
          · exact lt_of_le_of_lt (le_of_not_lt h) hfa
          · exact h1 y (List.mem_cons_of_mem c hy3)

/-- Python `max(key=...)` returns an element of maximal key, and of the
elements attaining the maximum, the first one in iteration order. -/
theorem pyMaxBy_spec {α : Type} (f : α → ℚ) (l : List α) (m : α)
    (h : pyMaxBy f l = some m) :
    ∃ l1 l2, l = l1 ++ m :: l2 ∧ (∀ y ∈ l1, f y < f m) ∧ (∀ y ∈ l2, f y ≤ f m) := by
  match l, h with
  | a :: t, h =>
    have hm : pyFold f a t = m := by simpa [pyMaxBy] using h
    obtain ⟨l1, l2, heq, h1, h2⟩ := pyFold_spec f t a
    rw [hm] at heq h1 h2
    exact ⟨l1, l2, heq, h1, h2⟩

/-- The rational comparison used for the supernode counts decides the
source's floating-point comparison `x > mean + 2 * std`, where `std` is the
square root of the sample variance `v`. -/
theorem gtMeanPlus2Std_iff (x m v : ℚ) (hv : 0 ≤ v) :
    gtMeanPlus2Std x m v = true ↔ (m : ℝ) + 2 * Real.sqrt (v : ℝ) < (x : ℝ) := by
  have hvR : (0 : ℝ) ≤ (v : ℝ) := by exact_mod_cast hv
  constructor
  · intro h
    obtain ⟨h1, h2⟩ := by simpa [gtMeanPlus2Std, decide_eq_true_iff] using h
    have h1' : (m : ℝ) < (x : ℝ) := by exact_mod_cast h1
    have h2' : (4 : ℝ) * (v : ℝ) < ((x : ℝ) - (m : ℝ)) ^ 2 := by
      have : ((4 * v : ℚ) : ℝ) < (((x - m) ^ 2 : ℚ) : ℝ) := by exact_mod_cast h2
      push_cast at this
      linarith
    have hs : Real.sqrt (v : ℝ) < ((x : ℝ) - (m : ℝ)) / 2 := by
      rw [Real.sqrt_lt' (by linarith)]
      nlinarith
    linarith
  · intro h
    have hsq : Real.sqrt (v : ℝ) ^ 2 = (v : ℝ) := Real.sq_sqrt hvR
    have hnn : 0 ≤ Real.sqrt (v : ℝ) := Real.sqrt_nonneg _
    have h1' : (m : ℝ) < (x : ℝ) := by linarith
    have h2' : (4 : ℝ) * (v : ℝ) < ((x : ℝ) - (m : ℝ)) ^ 2 := by nlinarith
    have h1 : m < x := by exact_mod_cast h1'
    have h2 : 4 * v < (x - m) ^ 2 := by
      have : ((4 * v : ℚ) : ℝ) < (((x - m) ^ 2 : ℚ) : ℝ) := by push_cast; linarith
      exact_mod_cast this
    simp [gtMeanPlus2Std, decide_eq_true_iff, h1, h2]

/-! ### Shared lemmas about the embedded pipeline -/

theorem upperPairsList_ne {α : Type} [DecidableEq α] :
    ∀ (l : List α), l.Nodup → ∀ p ∈ upperPairsList l, p.1 ≠ p.2 := by
  intro l
  induction l with
  | nil => intro _ p hp; simp [upperPairsList] at hp
  | cons x xs ih =>
    intro hnd p hp
    rw [upperPairsList, List.mem_append] at hp
    rcases hp with hp | hp
    · obtain ⟨y, hy, rfl⟩ := List.mem_map.mp hp
      have hx : x ∉ xs := (List.nodup_cons.mp hnd).1
      simp only [ne_eq]
      intro hxy
      exact hx (by rw [show x = y from hxy]; exact hy)
    · exact ih (List.Nodup.of_cons hnd) p hp

theorem laggedPairList_length (F : List ℚ → List ℚ → ℚ) (x y : List ℚ) (L : Nat) :
    (laggedPairList F x y L).length = 2 * L + 1 := by
  unfold laggedPairList
  rw [List.length_map, List.length_range]

theorem laggedPairList_getElem_fst (F : List ℚ → List ℚ → ℚ) (x y : List ℚ) (L i : Nat)
    (hi : i < (laggedPairList F x y L).length) :
    ((laggedPairList F x y L)[i]).1 = (i : Int) - (L : Int) := by
  have hi' : i < 2 * L + 1 := by
    rw [laggedPairList_length] at hi
    exact hi
  unfold laggedPairList
  rw [List.getElem_map, List.getElem_range]
  dsimp only
  split
  · rfl
  · split <;> rfl

theorem charListLt_irrefl : ∀ l : List Char, charListLt l l = false := by
  intro l
  induction l with
  | nil => rfl
  | cons c t ih =>
    rw [charListLt]
    simp [ih]

theorem strLt_ne {a b : String} (h : strLt a b = true) : a ≠ b := by
  intro he
  subst he
  unfold strLt at h
  rw [charListLt_irrefl] at h
  cases h

/-! ### C10 -/

/-- C10: `read_csv_to_polars` rewrites `object_type` to exactly `"issue"` when
the raw value case-insensitively starts with `"issue"` and to `"pr"` in every
other case; consequently every ingested record carries object type `"issue"`
or `"pr"`, with unrecognized raw types silently reclassified as `"pr"`. -/
theorem C10_objectTypeRewrite (rows : List RawRecord) :
    ((readCsvToPolars rows).map (·.object_type) =
      rows.map fun r =>
        if strStartsWith (toLowerStr r.object_type) issueLit then issueLit else prLit) ∧
    ∀ e ∈ readCsvToPolars rows, e.object_type = issueLit ∨ e.object_type = prLit := by
  constructor
  · rw [readCsvToPolars, List.map_map]
    rfl
  · intro e he
    obtain ⟨r, hr, rfl⟩ := List.mem_map.mp he
    by_cases h : strStartsWith (toLowerStr r.object_type) issueLit = true
    · left; simp [normalizeObjectType, h]
    · right; simp [normalizeObjectType, h]

/-- Closed instance of the C10 theorem on a concrete ingested record. -/
theorem C10_objectTypeRewrite_witness :
    (⟨"octo/repo", "opened", "issue", "u1", "o1", some ⟨2014, 9, 8⟩⟩ : Event).object_type = issueLit ∨
    (⟨"octo/repo", "opened", "issue", "u1", "o1", some ⟨2014, 9, 8⟩⟩ : Event).object_type = prLit :=
  (C10_objectTypeRewrite [wRawIssue]).2 _ (by decide)

/-! ### C1 -/

/-- C1: contrary to the claim, `calculate_graph_metrics` raises on degenerate
graphs rather than returning sentinels: with exactly one node the polars
`std` of the degree column is null and `mean + 2 * std` raises `TypeError`
inside `count_supernodes_by_degree`; on the empty graph
`nx.average_clustering` additionally divides by zero.  Both failures are
modelled by the `none` result. -/
theorem C1_degenerateGraphRaises :
    calculateGraphMetrics ⟨["a"], []⟩ = none ∧ calculateGraphMetrics emptyGraph = none := by
  constructor
  · decide
  · decide

/-! ### C9 -/

/-- C9: `distance_correlation_dataframe` emits, for each unordered pair of
distinct numeric columns, the same coefficient in both orderings, and emits
every numeric column's self-pair with coefficient exactly `1.0` independently
of the correlation function (i.e. without computing it). -/
theorem C9_dcorSymmetry (F : List ℚ → List ℚ → ℚ) (df : PDF)
    (hnd : (df.cols.map (·.1)).Nodup) :
    (∀ x y c, (x, y, c) ∈ distanceCorrelationDataframe F df →
      (y, x, c) ∈ distanceCorrelationDataframe F df) ∧
    (∀ nm ∈ numericCols df,
      (nm, nm, (1 : ℚ)) ∈ distanceCorrelationDataframe F df ∧
      ∀ c : ℚ, (nm, nm, c) ∈ distanceCorrelationDataframe F df → c = 1) ∧
    (∀ pq ∈ upperPairsList (numericCols df),
      (pq.1, pq.2, F (getCol df pq.1) (getCol df pq.2)) ∈ distanceCorrelationDataframe F df ∧
      (pq.2, pq.1, F (getCol df pq.1) (getCol df pq.2)) ∈ distanceCorrelationDataframe F df) := by
  have hnc : (numericCols df).Nodup := by
    unfold numericCols
    exact hnd.sublist (List.Sublist.map _ (List.filter_sublist df.cols))
  refine ⟨?_, ?_, ?_⟩
  · intro x y c h
    rw [distanceCorrelationDataframe, List.mem_append] at h
    rcases h with h | h
    · obtain ⟨pq, hpq, hin⟩ := List.mem_flatMap.mp h
      rw [distanceCorrelationDataframe, List.mem_append]
      left
      refine List.mem_flatMap.mpr ⟨pq, hpq, ?_⟩
      simp only [List.mem_cons, List.mem_singleton, Prod.mk.injEq] at hin ⊢
      rcases hin with ⟨hx, hy, hc⟩ | ⟨hx, hy, hc⟩ | hfalse
      · right; left; exact ⟨hy, hx, hc⟩
      · left; exact ⟨hy, hx, hc⟩
      · cases hfalse
    · obtain ⟨nm, hnm, heq⟩ := List.mem_map.mp h
      simp only [Prod.mk.injEq] at heq
      obtain ⟨hx, hy, hc⟩ := heq
      subst hx; subst hy; subst hc
      rw [distanceCorrelationDataframe, List.mem_append]
      right
      exact List.mem_map.mpr ⟨nm, hnm, rfl⟩
  · intro nm hnm
    constructor
    · rw [distanceCorrelationDataframe, List.mem_append]
      right
      exact List.mem_map.mpr ⟨nm, hnm, rfl⟩
    · intro c h
      rw [distanceCorrelationDataframe, List.mem_append] at h
      rcases h with h | h
      · obtain ⟨pq, hpq, hin⟩ := List.mem_flatMap.mp h
        have hne := upperPairsList_ne (numericCols df) hnc pq hpq
        simp only [List.mem_cons, List.mem_singleton, Prod.mk.injEq] at hin
        rcases hin with ⟨hx, hy, _⟩ | ⟨hx, hy, _⟩ | hfalse
        · exact absurd (hx.symm.trans hy) hne
        · exact absurd (hy.symm.trans hx) hne
        · cases hfalse
      · obtain ⟨nm2, hnm2, heq⟩ := List.mem_map.mp h
        simp only [Prod.mk.injEq] at heq
        exact heq.2.2.symm
  · intro pq hpq
    constructor
    · rw [distanceCorrelationDataframe, List.mem_append]
      left
      exact List.mem_flatMap.mpr ⟨pq, hpq, by simp⟩
    · rw [distanceCorrelationDataframe, List.mem_append]
      left
      exact List.mem_flatMap.mpr ⟨pq, hpq, by simp⟩

/-! ### C8 -/

theorem get_append_cons_self {α : Type} :
    ∀ (l1 : List α) (b : α) (l2 : List α) (h : l1.length < (l1 ++ b :: l2).length),
      (l1 ++ b :: l2).get ⟨l1.length, h⟩ = b := by
  intro l1
  induction l1 with
  | nil => intro b l2 h; rfl
  | cons x t ih =>
    intro b l2 h
    exact ih b l2 (by simp only [List.length_append, List.length_cons]; omega)

/-- C8: `best_lagged_distance_correlation_per_pair` reduces each pair's lag
list — which enumerates lags `-L..L` in scanning order — to an entry of
maximal coefficient, and on ties returns the first such lag encountered
scanning from `-L` to `+L` (every earlier entry is strictly smaller). -/
theorem C8_bestLagFirstMax (F : List ℚ → List ℚ → ℚ) (df : PDF) (L : Nat)
    (cx cy : String) (lcs : List (Int × ℚ))
    (h : ((cx, cy), lcs) ∈ laggedDistanceCorrelationAllPairs F df L) :
    ∃ b l1 l2, ((cx, cy), some b) ∈ bestLaggedDistanceCorrelationPerPair F df L ∧
      lcs = l1 ++ b :: l2 ∧ (∀ e ∈ lcs, e.2 ≤ b.2) ∧ (∀ e ∈ l1, e.2 < b.2) ∧
      b.1 = (l1.length : Int) - (L : Int) ∧
      ∀ i (hi : i < lcs.length), (lcs.get ⟨i, hi⟩).1 = (i : Int) - (L : Int) := by
  obtain ⟨pq, hpq, heq⟩ := List.mem_map.mp h
  have hpq1 : pq = (cx, cy) := congrArg Prod.fst heq
  have hlcs : lcs = laggedPairList F (getCol df pq.1) (getCol df pq.2) L :=
    (congrArg Prod.snd heq).symm
  have hlen : lcs.length = 2 * L + 1 := by rw [hlcs, laggedPairList_length]
  have hfst : ∀ i (hi : i < lcs.length), (lcs.get ⟨i, hi⟩).1 = (i : Int) - (L : Int) := by
    intro i hi
    have hi2 : i < (laggedPairList F (getCol df pq.1) (getCol df pq.2) L).length := by
      rw [← hlcs]; exact hi
    have hsame : lcs.get ⟨i, hi⟩ =
        (laggedPairList F (getCol df pq.1) (getCol df pq.2) L)[i] := by
      rw [List.get_eq_getElem]
      congr 1
    rw [hsame, laggedPairList_getElem_fst]
  have hne : lcs ≠ [] := by
    intro hnil
    rw [hnil] at hlen
    simp at hlen
  obtain ⟨b, hmax⟩ : ∃ b, pyMaxBy (fun e => e.2) lcs = some b := by
    match lcs, hne with
    | a :: t, _ => exact ⟨pyFold (fun e => e.2) a t, rfl⟩
  obtain ⟨l1, l2, hdec, h1, h2⟩ := pyMaxBy_spec (fun e => e.2) lcs b hmax
  refine ⟨b, l1, l2, ?_, hdec, ?_, h1, ?_, hfst⟩
  · refine List.mem_map.mpr ⟨(pq, lcs), ?_, ?_⟩
    · rw [hpq1]; exact h
    · rw [hpq1]
      simp only [Prod.mk.injEq, hmax]
  · intro e he
    rw [hdec, List.mem_append, List.mem_cons] at he
    rcases he with he | he | he
    · exact le_of_lt (h1 e he)
    · exact he ▸ le_rfl
    · exact h2 e he
  · have hlt : l1.length < lcs.length := by rw [hdec]; simp
    have hbl : lcs.get ⟨l1.length, hlt⟩ = b := by
      have hgoal := get_append_cons_self l1 b l2 (by rw [← hdec]; exact hlt)
      calc lcs.get ⟨l1.length, hlt⟩
          = (l1 ++ b :: l2).get ⟨l1.length, by rw [← hdec]; exact hlt⟩ := by
            rw [List.get_eq_getElem, List.get_eq_getElem]
            congr 1
        _ = b := hgoal
    rw [← hbl]
    exact hfst l1.length hlt

/-- Closed instance of the C8 theorem on a concrete table and lag bound. -/
theorem C8_bestLagFirstMax_witness :
    ∃ b l1 l2, (("ua", "ec"), some b) ∈ bestLaggedDistanceCorrelationPerPair wDcorF wPdf 1 ∧
      wLcs = l1 ++ b :: l2 ∧ (∀ e ∈ wLcs, e.2 ≤ b.2) ∧ (∀ e ∈ l1, e.2 < b.2) ∧
      b.1 = (l1.length : Int) - ((1 : Nat) : Int) ∧
      ∀ i (hi : i < wLcs.length), (wLcs.get ⟨i, hi⟩).1 = (i : Int) - ((1 : Nat) : Int) :=
  C8_bestLagFirstMax wDcorF wPdf 1 ("ua") ("ec") wLcs (by decide)

/-- Closed instance of the C9 theorem on a concrete table. -/
theorem C9_dcorSymmetry_witness :
    ("ua", "ua", (1 : ℚ)) ∈ distanceCorrelationDataframe wDcorF wPdf ∧
    ∀ c : ℚ, ("ua", "ua", c) ∈ distanceCorrelationDataframe wDcorF wPdf → c = 1 :=
  (C9_dcorSymmetry wDcorF wPdf (by decide)).2.1 ("ua") (by decide)

/-! ### C2 -/

theorem flatMap_filter_of_vanish {α β : Type} (p : α → Bool) (f : α → List β) :
    ∀ l : List α, (∀ a ∈ l, p a = false → f a = []) →
      (l.filter p).flatMap f = l.flatMap f := by
  intro l
  induction l with
  | nil => intro _; rfl
  | cons a t ih =>
    intro h
    by_cases hp : p a = true
    · simp only [List.filter_cons, hp, if_true, List.flatMap_cons]
      rw [ih fun b hb => h b (List.mem_cons_of_mem a hb)]
    · have hp' : p a = false := by simpa using hp
      simp only [List.filter_cons, hp', Bool.false_eq_true, if_false, List.flatMap_cons]
      rw [ih fun b hb => h b (List.mem_cons_of_mem a hb), h a (List.mem_cons_self a t) hp']
      rfl

theorem filter_comm' {α : Type} (p q : α → Bool) (l : List α) :
    (l.filter p).filter q = (l.filter q).filter p := by
  rw [List.filter_filter, List.filter_filter]
  exact List.filter_congr fun a _ => Bool.and_comm (q a) (p a)

theorem typeFilter_filter_comm (et : Option String) (q : CountRow → Bool) (df : List CountRow) :
    typeFilter et (df.filter q) = (typeFilter et df).filter q := by
  match et with
  | none => rfl
  | some t => exact filter_comm' q (fun r => r.object_type == t) df

theorem createActorPairs_filter_isSome (df : List CountRow) :
    createActorPairsByDateAndObject (df.filter fun r => r.event_date.isSome) =
      createActorPairsByDateAndObject df := by
  have hinner : ∀ r1 : CountRow,
      ((df.filter fun r => r.event_date.isSome).filter (joinCond r1)) =
        df.filter (joinCond r1) := by
    intro r1
    rw [List.filter_filter]
    refine List.filter_congr ?_
    intro r2 _
    by_cases h : joinCond r1 r2 = true
    · rw [h, Bool.true_and]
      unfold joinCond at h
      simp only [Bool.and_eq_true, beq_iff_eq] at h
      rw [← h.1.2, h.1.1]
    · have h' : joinCond r1 r2 = false := by simpa using h
      rw [h', Bool.false_and]
  have hfun : (fun r1 : CountRow =>
      ((df.filter fun r => r.event_date.isSome).filter (joinCond r1)).map fun r2 => (r1, r2)) =
      (fun r1 : CountRow => (df.filter (joinCond r1)).map fun r2 => (r1, r2)) :=
    funext fun r1 => by rw [hinner r1]
  unfold createActorPairsByDateAndObject
  rw [hfun]
  rw [flatMap_filter_of_vanish (fun r => r.event_date.isSome)
    (fun r1 => (df.filter (joinCond r1)).map fun r2 => (r1, r2)) df ?_]
  intro r1 _ hr1
  have hr1' : r1.event_date.isSome = false := hr1
  have hempty : df.filter (joinCond r1) = [] := by
    refine List.filter_eq_nil_iff.mpr ?_
    intro r2 _
    unfold joinCond
    simp [hr1']
  simp only [hempty, List.map_nil]

theorem rollingSum_length (w : Nat) (xs : List Nat) : (rollingSum w xs).length = xs.length := by
  unfold rollingSum
  rw [List.length_map, List.length_range]

theorem mkRollingRows_none_iff :
    ∀ (ds : List DailyStat) (us cs : List (Option Nat)),
      us.length = ds.length → cs.length = ds.length →
      ((∃ r ∈ mkRollingRows ds us cs, r.event_date = none) ↔
        ∃ d ∈ ds, d.event_date = none) := by
  intro ds
  induction ds with
  | nil =>
    intro us cs _ _
    simp [mkRollingRows]
  | cons d ds ih =>
    intro us cs hu hc
    match us, cs with
    | u :: us2, c :: cs2 =>
      simp only [List.length_cons] at hu hc
      rw [mkRollingRows]
      constructor
      · rintro ⟨r, hr, hnone⟩
        rcases List.mem_cons.mp hr with rfl | hr2
        · exact ⟨d, List.mem_cons_self d ds, hnone⟩
        · obtain ⟨d2, hd2, hd2n⟩ := (ih us2 cs2 (by omega) (by omega)).mp ⟨r, hr2, hnone⟩
          exact ⟨d2, List.mem_cons_of_mem d hd2, hd2n⟩
      · rintro ⟨d2, hd2, hd2n⟩
        rcases List.mem_cons.mp hd2 with rfl | hd3
        · exact ⟨⟨d2.event_date, u, c⟩, List.mem_cons_self _ _, hd2n⟩
        · obtain ⟨r, hr, hrn⟩ := (ih us2 cs2 (by omega) (by omega)).mpr ⟨d2, hd3, hd2n⟩
          exact ⟨r, List.mem_cons_of_mem _ hr, hrn⟩

theorem exists_mem_sortLe_iff {α : Type} (le : α → α → Bool) (l : List α) (P : α → Prop) :
    (∃ r ∈ sortLe le l, P r) ↔ ∃ r ∈ l, P r := by
  constructor
  · rintro ⟨r, hr, hp⟩
    exact ⟨r, (mem_sortLe le l r).mp hr, hp⟩
  · rintro ⟨r, hr, hp⟩
    exact ⟨r, (mem_sortLe le l r).mpr hr, hp⟩

theorem dailyStats_none_iff (df : List CountRow) (et : Option String) :
    (∃ s ∈ dailyStats df et, s.event_date = none) ↔
      ∃ c ∈ typeFilter et df, c.event_date = none := by
  simp only [dailyStats]
  constructor
  · rintro ⟨s, hs, hsn⟩
    obtain ⟨d, hd, rfl⟩ := List.mem_map.mp hs
    have hd2 := (mem_firstKeys _ _).mp hd
    obtain ⟨c, hc, hcd⟩ := List.mem_map.mp hd2
    refine ⟨c, (mem_sortLe countRowDateLe _ c).mp hc, ?_⟩
    rw [hcd]
    exact hsn
  · rintro ⟨c, hc, hcn⟩
    have hc2 : c ∈ sortLe countRowDateLe (typeFilter et df) :=
      (mem_sortLe countRowDateLe _ c).mpr hc
    have hd : c.event_date ∈
        firstKeys ((sortLe countRowDateLe (typeFilter et df)).map (·.event_date)) :=
      (mem_firstKeys _ _).mpr (List.mem_map.mpr ⟨c, hc2, rfl⟩)
    exact ⟨_, List.mem_map.mpr ⟨c.event_date, hd, rfl⟩, hcn⟩

/-- C2 (amended): a record whose date string matches none of the three
formats carries a null date; such records are excluded from pair aggregation
(the self-join never matches null dates), but in the daily-count grouping and
in the rolling-window statistics they form their own null-date group that
appears in the output; no operation aborts (all are total). -/
theorem C2_unparseableDates (rows : List RawRecord) (events : List Event)
    (df : List CountRow) (et : Option String) (D : Nat) :
    ((readCsvToPolars rows).map (·.event_date) =
      rows.map fun r => parseMixedDatetime r.event_date_str) ∧
    prepareDfToGraph df et = prepareDfToGraph (df.filter fun r => r.event_date.isSome) et ∧
    ((∃ c ∈ dailyEventCount events, c.event_date = none) ↔
      ∃ e ∈ events, e.event_date = none) ∧
    ((∃ r ∈ rollingWindowStats df et D, r.event_date = none) ↔
      ∃ c ∈ typeFilter et df, c.event_date = none) := by
  refine ⟨?_, ?_, ?_, ?_⟩
  · rw [readCsvToPolars, List.map_map]
    rfl
  · simp only [prepareDfToGraph]
    rw [typeFilter_filter_comm, createActorPairs_filter_isSome]
  · simp only [dailyEventCount]
    constructor
    · rintro ⟨c, hc, hcn⟩
      have hc2 := (mem_sortLe countRowSortLe _ c).mp hc
      obtain ⟨k, hk, rfl⟩ := List.mem_map.mp hc2
      have hk2 := (mem_firstKeys _ _).mp hk
      obtain ⟨e, he, hek⟩ := List.mem_map.mp hk2
      refine ⟨e, he, ?_⟩
      have : e.event_date = k.1 := congrArg Prod.fst hek
      rw [this]
      exact hcn
    · rintro ⟨e, he, hen⟩
      have hk : cKey e ∈ firstKeys (events.map cKey) :=
        (mem_firstKeys _ _).mpr (List.mem_map.mpr ⟨e, he, rfl⟩)
      refine ⟨_, (mem_sortLe countRowSortLe _ _).mpr (List.mem_map.mpr ⟨cKey e, hk, rfl⟩), hen⟩
  · simp only [rollingWindowStats]
    rw [exists_mem_sortLe_iff]
    rw [mkRollingRows_none_iff (dailyStats df et) _ _
      (by rw [rollingSum_length, List.length_map]) (by rw [rollingSum_length, List.length_map])]
    exact dailyStats_none_iff df et

/-- C2 counterexample: the claim as stated is false — a record with an
unparseable date string (null parsed date) is NOT excluded from the
daily-count grouping or from the rolling-window statistics: it contributes a
null-date group visible in both outputs. -/
theorem C2_unparseableDates_counterexample :
    parseMixedDatetime ("not a date") = none ∧
    ((dailyEventCount (readCsvToPolars [wRawIssue, wRawBad])).any
      fun c => c.event_date == none) = true ∧
    ((rollingWindowStats (dailyEventCount (readCsvToPolars [wRawIssue, wRawBad])) none 1).any
      fun r => r.event_date == none) = true :=
  ⟨by decide, by decide, by decide⟩

/-! ### C7 -/

theorem mkRollingRows_length :
    ∀ (ds : List DailyStat) (us cs : List (Option Nat)),
      us.length = ds.length → cs.length = ds.length →
      (mkRollingRows ds us cs).length = ds.length := by
  intro ds
  induction ds with
  | nil =>
    intro us cs _ _
    match us, cs with
    | [], [] => rfl
    | [], _ :: _ => rfl
    | _ :: _, _ => rfl
  | cons d ds ih =>
    intro us cs hu hc
    match us, cs with
    | u :: us2, c :: cs2 =>
      simp only [List.length_cons] at hu hc ⊢
      rw [mkRollingRows, List.length_cons, ih us2 cs2 (by omega) (by omega)]

theorem mkRollingRows_getElem :
    ∀ (ds : List DailyStat) (us cs : List (Option Nat)) (i : Nat),
      us.length = ds.length → cs.length = ds.length →
      (mkRollingRows ds us cs)[i]? =
        (ds[i]?).bind fun d => (us[i]?).bind fun u => (cs[i]?).map fun c =>
          RollingRow.mk d.event_date u c := by
  intro ds
  induction ds with
  | nil =>
    intro us cs i _ _
    match us, cs with
    | [], [] => simp [mkRollingRows]
  | cons d ds ih =>
    intro us cs i hu hc
    match us, cs with
    | u :: us2, c :: cs2 =>
      simp only [List.length_cons] at hu hc
      rw [mkRollingRows]
      match i with
      | 0 => simp
      | i + 1 =>
        simp only [List.getElem?_cons_succ]
        exact ih us2 cs2 i (by omega) (by omega)

theorem mkRollingRows_date :
    ∀ (ds : List DailyStat) (us cs : List (Option Nat)),
      us.length = ds.length → cs.length = ds.length →
      ∀ (i : Nat) (hi : i < (mkRollingRows ds us cs).length) (hi2 : i < ds.length),
      ((mkRollingRows ds us cs)[i]).event_date = ds[i].event_date := by
  intro ds
  induction ds with
  | nil =>
    intro us cs _ _ i _ hi2
    exact absurd hi2 (by simp)
  | cons d ds ih =>
    intro us cs hu hc i hi hi2
    match us, cs with
    | u :: us2, c :: cs2 =>
      simp only [List.length_cons] at hu hc hi2
      match i with
      | 0 => rfl
      | i + 1 =>
        have hi' : i < (mkRollingRows ds us2 cs2).length := by
          rw [mkRollingRows_length ds us2 cs2 (by omega) (by omega)]
          omega
        simp only [mkRollingRows, List.getElem_cons_succ]
        exact ih us2 cs2 (by omega) (by omega) i hi' (by omega)

theorem rollingSum_getElem (w : Nat) (xs : List Nat) (i : Nat) (hi : i < xs.length) :
    (rollingSum w xs)[i]? =
      some (if w ≤ i + 1 then some (((xs.take (i + 1)).drop (i + 1 - w)).sum) else none) := by
  unfold rollingSum
  rw [List.getElem?_map, List.getElem?_range hi]
  rfl

/-- C7: `rolling_window_stats` groups events by date into daily unique-actor
counts and daily event totals — one output row per distinct date, in
ascending date order — and applies a trailing rolling sum (not a mean) of
window `D` to both series with no minimum-sample override: entry `i` is null
exactly while the window is not yet full, so the first `D - 1` rows of both
rolling columns are null. -/
theorem C7_rollingWindowStats (df : List CountRow) (et : Option String) (D : Nat)
    (hD : 1 ≤ D) :
    (rollingWindowStats df et D).length = (dailyStats df et).length ∧
    ∀ i : Nat,
      (rollingWindowStats df et D)[i]? =
        ((dailyStats df et)[i]?).map fun dd =>
          RollingRow.mk dd.event_date
            (if D ≤ i + 1 then
              some (((((dailyStats df et).map (·.daily_unique_actors)).take (i + 1)).drop
                (i + 1 - D)).sum)
            else none)
            (if D ≤ i + 1 then
              some (((((dailyStats df et).map (·.daily_event_count)).take (i + 1)).drop
                (i + 1 - D)).sum)
            else none) := by
  have hD1 : 0 < D := hD
  set daily := dailyStats df et with hdailydef
  have hulen : (rollingSum D (daily.map (·.daily_unique_actors))).length = daily.length := by
    rw [rollingSum_length, List.length_map]
  have hclen : (rollingSum D (daily.map (·.daily_event_count))).length = daily.length := by
    rw [rollingSum_length, List.length_map]
  have hdaily : daily.Pairwise (fun a b => optDateLe a.event_date b.event_date = true) := by
    rw [hdailydef]
    simp only [dailyStats]
    rw [List.pairwise_map]
    refine List.Pairwise.sublist (firstKeys_sublist _) ?_
    rw [List.pairwise_map]
    exact sortLe_pairwise countRowDateLe
      (fun x y z h1 h2 => optDateLe_trans h1 h2)
      (fun x y => optDateLe_total x.event_date y.event_date)
      (typeFilter et df)
  have hrows : rollingWindowStats df et D =
      mkRollingRows daily
        (rollingSum D (daily.map (·.daily_unique_actors)))
        (rollingSum D (daily.map (·.daily_event_count))) := by
    simp only [rollingWindowStats, ← hdailydef]
    apply sortLe_of_pairwise
    rw [List.pairwise_iff_getElem]
    intro i j hi hj hij
    have hlen : (mkRollingRows daily
        (rollingSum D (daily.map (·.daily_unique_actors)))
        (rollingSum D (daily.map (·.daily_event_count)))).length = daily.length :=
      mkRollingRows_length daily _ _ hulen hclen
    have hi2 : i < daily.length := by rw [hlen] at hi; exact hi
    have hj2 : j < daily.length := by rw [hlen] at hj; exact hj
    show rollingRowDateLe _ _ = true
    unfold rollingRowDateLe
    rw [mkRollingRows_date daily _ _ hulen hclen i hi hi2,
      mkRollingRows_date daily _ _ hulen hclen j hj hj2]
    exact (List.pairwise_iff_getElem.mp hdaily) i j hi2 hj2 hij
  constructor
  · rw [hrows]
    exact mkRollingRows_length daily _ _ hulen hclen
  · intro i
    rw [hrows]
    by_cases hi : i < daily.length
    · rw [mkRollingRows_getElem daily _ _ i hulen hclen]
      rw [List.getElem?_eq_getElem hi]
      rw [rollingSum_getElem D _ i (by rw [List.length_map]; exact hi)]
      rw [rollingSum_getElem D _ i (by rw [List.length_map]; exact hi)]
      rfl
    · have hge : daily.length ≤ i := Nat.le_of_not_lt hi
      rw [List.getElem?_eq_none (by rw [mkRollingRows_length daily _ _ hulen hclen]; exact hge)]
      rw [List.getElem?_eq_none hge]
      rfl

/-- Closed instance of the C7 theorem on a concrete table and window. -/
theorem C7_rollingWindowStats_witness :
    (rollingWindowStats wCountRows7 none 2).length = (dailyStats wCountRows7 none).length ∧
    ∀ i : Nat,
      (rollingWindowStats wCountRows7 none 2)[i]? =
        ((dailyStats wCountRows7 none)[i]?).map fun dd =>
          RollingRow.mk dd.event_date
            (if 2 ≤ i + 1 then
              some (((((dailyStats wCountRows7 none).map (·.daily_unique_actors)).take (i + 1)).drop
                (i + 1 - 2)).sum)
            else none)
            (if 2 ≤ i + 1 then
              some (((((dailyStats wCountRows7 none).map (·.daily_event_count)).take (i + 1)).drop
                (i + 1 - 2)).sum)
            else none) :=
  C7_rollingWindowStats wCountRows7 none 2 (by decide)

/-! ### C6 -/

/-- C6: `graphs_metrics_to_dataframe` with `W ≤ 1` is the identity transform
on the metrics table, and with `W > 1` replaces each metric column of length
`K` by a trailing rolling mean with minimum sample count 1, yielding exactly
`K` rows where row `i` with `i < W - 1` is the mean of rows `0..i`
inclusive. -/
theorem C6_smoothing (gbd : List (Option Date × Graph)) (W : Nat) (df0 : MetricsDF)
    (h0 : graphsMetricsToDataframe gbd 0 = some df0) :
    (W ≤ 1 → graphsMetricsToDataframe gbd W = some df0) ∧
    (1 < W →
      graphsMetricsToDataframe gbd W =
        some ⟨df0.event_date, df0.cols.map fun c => (c.1, rollingMeanVal W c.2)⟩ ∧
      ∀ nm xs, (nm, xs) ∈ df0.cols →
        (rollingMeanVal W xs).length = xs.length ∧
        ∀ i : Nat, i + 1 < W → i < xs.length →
          (rollingMeanVal W xs)[i]? = some (meanVal (xs.take (i + 1)))) := by
  cases hm : gbd.mapM (fun p => (calculateGraphMetrics p.2).map fun m => (p.1, m)) with
  | none =>
    rw [graphsMetricsToDataframe, hm] at h0
    exact absurd h0 (by simp)
  | some recs0 =>
    have h0' : some (MetricsDF.mk ((sortLe dgDateLe recs0).map (·.1))
        (metricsColSpec.map fun c => (c.1, (sortLe dgDateLe recs0).map fun r => c.2 r.2))) =
        some df0 := by
      rw [graphsMetricsToDataframe, hm] at h0
      simpa using h0
    have hdf0 : df0 = MetricsDF.mk ((sortLe dgDateLe recs0).map (·.1))
        (metricsColSpec.map fun c => (c.1, (sortLe dgDateLe recs0).map fun r => c.2 r.2)) :=
      (Option.some.inj h0').symm
    constructor
    · intro hW
      simp only [graphsMetricsToDataframe, hm]
      rw [if_neg (by omega : ¬ 1 < W)]
      exact h0'
    · intro hW
      constructor
      · simp only [graphsMetricsToDataframe, hm]
        rw [if_pos hW, hdf0]
      · intro nm xs _
        constructor
        · unfold rollingMeanVal
          rw [List.length_map, List.length_range]
        · intro i hiW hile
          unfold rollingMeanVal
          rw [List.getElem?_map, List.getElem?_range hile]
          have hz : i + 1 - W = 0 := by omega
          simp only [Option.map_some', hz, List.drop_zero]

/-- Closed instance of the C6 theorem on a concrete one-date metrics table. -/
theorem C6_smoothing_witness :
    (3 ≤ 1 → graphsMetricsToDataframe wGbd 3 = some wDf0) ∧
    (1 < 3 →
      graphsMetricsToDataframe wGbd 3 =
        some ⟨wDf0.event_date, wDf0.cols.map fun c => (c.1, rollingMeanVal 3 c.2)⟩ ∧
      ∀ nm xs, (nm, xs) ∈ wDf0.cols →
        (rollingMeanVal 3 xs).length = xs.length ∧
        ∀ i : Nat, i + 1 < 3 → i < xs.length →
          (rollingMeanVal 3 xs)[i]? = some (meanVal (xs.take (i + 1)))) :=
  C6_smoothing wGbd 3 wDf0 (by
    have h : (graphsMetricsToDataframe wGbd 0).isSome = true := by decide
    obtain ⟨v, hv⟩ := Option.isSome_iff_exists.mp h
    simp only [wDf0, hv, Option.getD_some])

/-! ### Structure of `prepare_df_to_graph` output rows -/

theorem joinCond_spec {r1 r2 : CountRow} (h : joinCond r1 r2 = true) :
    r1.event_date.isSome = true ∧ r1.event_date = r2.event_date ∧
      r1.object_id = r2.object_id := by
  unfold joinCond at h
  simp only [Bool.and_eq_true, beq_iff_eq] at h
  exact ⟨h.1.1, h.1.2, h.2⟩

theorem mem_prepare_iff (df : List CountRow) (et : Option String) (r : AggRow) :
    r ∈ prepareDfToGraph df et ↔
      ∃ r1 r2 : CountRow, r1 ∈ typeFilter et df ∧ r2 ∈ typeFilter et df ∧
        joinCond r1 r2 = true ∧ strLt r1.actor_id r2.actor_id = true ∧
        r = AggRow.mk r1.event_date r1.actor_id r2.actor_id
          (pairSumAt (createActorPairsByDateAndObject (typeFilter et df))
            (r1.event_date, r1.actor_id, r2.actor_id)) := by
  constructor
  · intro hr
    simp only [prepareDfToGraph] at hr
    have hr2 := (mem_sortLe _ _ _).mp hr
    obtain ⟨k, hk, hmk⟩ := List.mem_map.mp hr2
    have hk2 := (mem_firstKeys _ _).mp hk
    obtain ⟨p, hp, hpk⟩ := List.mem_map.mp hk2
    simp only [createActorPairsByDateAndObject] at hp
    obtain ⟨rr, hrr, hbuild⟩ := List.mem_map.mp hp
    obtain ⟨hjoined, hlt⟩ := List.mem_filter.mp hrr
    obtain ⟨r1, hr1, hin⟩ := List.mem_flatMap.mp hjoined
    obtain ⟨r2, hr2f, hpair⟩ := List.mem_map.mp hin
    obtain ⟨hr2m, hjc⟩ := List.mem_filter.mp hr2f
    subst hpair
    subst hbuild
    subst hpk
    refine ⟨r1, r2, hr1, hr2m, hjc, hlt, ?_⟩
    exact hmk.symm
  · rintro ⟨r1, r2, hr1, hr2, hjc, hlt, rfl⟩
    simp only [prepareDfToGraph]
    refine (mem_sortLe _ _ _).mpr ?_
    have hpmem : (PairRow.mk r1.event_date r1.object_id r1.actor_id r2.actor_id
        (r1.daily_event_count + r2.daily_event_count)) ∈
        createActorPairsByDateAndObject (typeFilter et df) := by
      simp only [createActorPairsByDateAndObject]
      refine List.mem_map.mpr ⟨(r1, r2), ?_, rfl⟩
      refine List.mem_filter.mpr ⟨?_, hlt⟩
      refine List.mem_flatMap.mpr ⟨r1, hr1, ?_⟩
      exact List.mem_map.mpr ⟨r2, List.mem_filter.mpr ⟨hr2, hjc⟩, rfl⟩
    refine List.mem_map.mpr ⟨(r1.event_date, r1.actor_id, r2.actor_id), ?_, rfl⟩
    refine (mem_firstKeys _ _).mpr ?_
    exact List.mem_map.mpr ⟨_, hpmem, rfl⟩

/-! ### C5 -/

theorem mem_ite_extend {x : String} {l : List String} (c : Prop) [Decidable c] (y : String)
    (hx : x ∈ l) : x ∈ (if c then l else l ++ [y]) := by
  by_cases h : c
  · rw [if_pos h]; exact hx
  · rw [if_neg h]; exact List.mem_append_left _ hx

theorem mem_ite_extend_self {l : List String} (c : Prop) [Decidable c] {y : String}
    (hc : c → y ∈ l) : y ∈ (if c then l else l ++ [y]) := by
  by_cases h : c
  · rw [if_pos h]; exact hc h
  · rw [if_neg h]; exact List.mem_append_right _ (List.mem_singleton.mpr rfl)

theorem addEdge_mem_left (g : Graph) (u v : String) : u ∈ (addEdge g u v).nodes := by
  show u ∈ (if v ∈ (if u ∈ g.nodes then g.nodes else g.nodes ++ [u])
      then (if u ∈ g.nodes then g.nodes else g.nodes ++ [u])
      else (if u ∈ g.nodes then g.nodes else g.nodes ++ [u]) ++ [v])
  exact mem_ite_extend _ v (mem_ite_extend_self _ fun h => h)

theorem addEdge_mem_right (g : Graph) (u v : String) : v ∈ (addEdge g u v).nodes := by
  show v ∈ (if v ∈ (if u ∈ g.nodes then g.nodes else g.nodes ++ [u])
      then (if u ∈ g.nodes then g.nodes else g.nodes ++ [u])
      else (if u ∈ g.nodes then g.nodes else g.nodes ++ [u]) ++ [v])
  exact mem_ite_extend_self _ fun h => h

theorem addEdge_mono (g : Graph) (u v x : String) (hx : x ∈ g.nodes) :
    x ∈ (addEdge g u v).nodes := by
  show x ∈ (if v ∈ (if u ∈ g.nodes then g.nodes else g.nodes ++ [u])
      then (if u ∈ g.nodes then g.nodes else g.nodes ++ [u])
      else (if u ∈ g.nodes then g.nodes else g.nodes ++ [u]) ++ [v])
  exact mem_ite_extend _ v (mem_ite_extend _ u hx)

theorem foldAddEdge_mono :
    ∀ (rows : List AggRow) (g0 : Graph) (x : String), x ∈ g0.nodes →
      x ∈ (rows.foldl (fun g r => addEdge g r.actor_id r.actor_id_2) g0).nodes := by
  intro rows
  induction rows with
  | nil => intro g0 x hx; exact hx
  | cons r rows ih =>
    intro g0 x hx
    exact ih _ x (addEdge_mono g0 r.actor_id r.actor_id_2 x hx)

theorem foldAddEdge_mem :
    ∀ (rows : List AggRow) (g0 : Graph) (r : AggRow), r ∈ rows →
      r.actor_id ∈ (rows.foldl (fun g r => addEdge g r.actor_id r.actor_id_2) g0).nodes ∧
      r.actor_id_2 ∈ (rows.foldl (fun g r => addEdge g r.actor_id r.actor_id_2) g0).nodes := by
  intro rows
  induction rows with
  | nil => intro g0 r hr; cases hr
  | cons r0 rows ih =>
    intro g0 r hr
    rcases List.mem_cons.mp hr with rfl | hr2
    · constructor
      · exact foldAddEdge_mono rows _ _ (addEdge_mem_left g0 r.actor_id r.actor_id_2)
      · exact foldAddEdge_mono rows _ _ (addEdge_mem_right g0 r.actor_id r.actor_id_2)
    · exact ih _ r hr2

theorem two_le_length_of_two_mem {α : Type} :
    ∀ (l : List α) (x y : α), x ∈ l → y ∈ l → x ≠ y → 2 ≤ l.length := by
  intro l x y hx hy hxy
  match l with
  | [] => cases hx
  | [a] =>
    rcases List.mem_singleton.mp hx with rfl
    rcases List.mem_singleton.mp hy with rfl
    exact absurd rfl hxy
  | a :: b :: t => simp only [List.length_cons]; omega

/-- On a graph with at least two nodes, every constituent of
`calculate_graph_metrics` is defined, and the path-length metrics follow the
connectivity dichotomy. -/
theorem calculateGraphMetrics_two_nodes (g : Graph) (h2 : 2 ≤ g.nodes.length) :
    ∃ m, calculateGraphMetrics g = some m ∧
      ((g.isConnectedOpt = some true ∧
        (∃ q, averageShortestPathLength g = some q ∧
          m.average_shortest_path_length = Val.fin q) ∧
        (∃ k, g.eccDiameter = some k ∧ m.diameter = Val.fin (k : ℚ))) ∨
       (g.isConnectedOpt = some false ∧
        m.average_shortest_path_length = Val.inf ∧ m.diameter = Val.inf)) := by
  have hn0 : g.nodes.length ≠ 0 := by omega
  have hac : averageClustering g =
      some (((g.nodes.map g.localClustering).sum) / (g.nodes.length : ℚ)) := by
    unfold averageClustering
    rw [if_neg hn0]
  obtain ⟨sd, hsd⟩ : ∃ n1, countSupernodesByDegree g = some n1 := by
    unfold countSupernodesByDegree
    obtain ⟨m0, hm0⟩ : ∃ m0,
        sampleMean (g.nodes.map fun v => (g.degree v : ℚ)) = some m0 := by
      unfold sampleMean
      rw [if_neg (by rw [List.length_map]; omega)]
      exact ⟨_, rfl⟩
    obtain ⟨v0, hv0⟩ : ∃ v0,
        sampleVar (g.nodes.map fun v => (g.degree v : ℚ)) = some v0 := by
      unfold sampleVar
      simp only [hm0]
      rw [if_neg (by rw [List.length_map]; omega)]
      exact ⟨_, rfl⟩
    simp only [hm0, hv0]
    exact ⟨_, rfl⟩
  obtain ⟨sb, hsb⟩ : ∃ n1, countSupernodesByBetweenness g = some n1 := by
    unfold countSupernodesByBetweenness
    obtain ⟨m0, hm0⟩ : ∃ m0, sampleMean (g.nodes.map g.betweenness) = some m0 := by
      unfold sampleMean
      rw [if_neg (by rw [List.length_map]; omega)]
      exact ⟨_, rfl⟩
    obtain ⟨v0, hv0⟩ : ∃ v0, sampleVar (g.nodes.map g.betweenness) = some v0 := by
      unfold sampleVar
      simp only [hm0]
      rw [if_neg (by rw [List.length_map]; omega)]
      exact ⟨_, rfl⟩
    simp only [hm0, hv0]
    exact ⟨_, rfl⟩
  match hns : g.nodes, h2 with
  | v :: rest, _ =>
    have hconn : g.isConnectedOpt = some (g.nodes.all fun u => g.connectedTo v u) := by
      unfold Graph.isConnectedOpt
      rw [hns]
    by_cases hb : (g.nodes.all fun u => g.connectedTo v u) = true
    · have hconn' : g.isConnectedOpt = some true := by rw [hconn, hb]
      have haspl : averageShortestPathLength g =
          some (((g.nodes.flatMap fun u =>
              g.nodes.map fun w => ((g.dist u w).getD 0 : ℚ)).sum) /
            ((g.nodes.length : ℚ) * ((g.nodes.length : ℚ) - 1))) := by
        unfold averageShortestPathLength
        rw [if_neg hn0, if_neg (by omega), hconn']
      have hdiam : g.eccDiameter =
          some ((g.nodes.flatMap fun u => g.nodes.map fun w => (g.dist u w).getD 0).foldl
            max 0) := by
        unfold Graph.eccDiameter
        rw [if_neg hn0, hconn']
      have hcalc : calculateGraphMetrics g = some
          (GraphMetrics.mk g.nodes.length g.edges.length
            (((g.nodes.map g.localClustering).sum) / (g.nodes.length : ℚ)) (density g)
            (averageDegree g) (numberOfIsolatedNodes g) (numberConnectedComponents g) sd sb
            (Val.fin (((g.nodes.flatMap fun u =>
                g.nodes.map fun w => ((g.dist u w).getD 0 : ℚ)).sum) /
              ((g.nodes.length : ℚ) * ((g.nodes.length : ℚ) - 1))))
            (Val.fin ((((g.nodes.flatMap fun u =>
                g.nodes.map fun w => (g.dist u w).getD 0).foldl max 0) : Nat) : ℚ))) := by
        simp only [calculateGraphMetrics, hac, hsd, hsb, hconn', if_true, haspl, hdiam,
          Option.map_some']
      exact ⟨_, hcalc, Or.inl ⟨hconn', ⟨_, haspl, rfl⟩, ⟨_, hdiam, rfl⟩⟩⟩
    · have hb' : (g.nodes.all fun u => g.connectedTo v u) = false := by
        simpa using hb
      have hconn' : g.isConnectedOpt = some false := by rw [hconn, hb']
      have hcalc : calculateGraphMetrics g = some
          (GraphMetrics.mk g.nodes.length g.edges.length
            (((g.nodes.map g.localClustering).sum) / (g.nodes.length : ℚ)) (density g)
            (averageDegree g) (numberOfIsolatedNodes g) (numberConnectedComponents g) sd sb
            Val.inf Val.inf) := by
        simp only [calculateGraphMetrics, hac, hsd, hsb, hconn', Bool.false_eq_true, if_false]
      exact ⟨_, hcalc, Or.inr ⟨hconn', rfl, rfl⟩⟩

/-- C5: for every day-graph produced by the pipeline (graph construction over
the aggregated pair table), `calculate_graph_metrics` returns a record — no
constituent raises — in which `average_shortest_path_length` and `diameter`
are the computed finite values when the graph is connected and the
`float('inf')` sentinel when it is not; they are never a coerced finite
number and never dropped. -/
theorem C5_asplDiameterSentinels (df : List CountRow) (et : Option String)
    (d : Option Date) (g : Graph)
    (h : (d, g) ∈ createGraphsByDate (prepareDfToGraph df et)) :
    ∃ m, calculateGraphMetrics g = some m ∧
      ((g.isConnectedOpt = some true ∧
        (∃ q, averageShortestPathLength g = some q ∧
          m.average_shortest_path_length = Val.fin q) ∧
        (∃ k, g.eccDiameter = some k ∧ m.diameter = Val.fin (k : ℚ))) ∨
       (g.isConnectedOpt = some false ∧
        m.average_shortest_path_length = Val.inf ∧ m.diameter = Val.inf)) := by
  refine calculateGraphMetrics_two_nodes g ?_
  simp only [createGraphsByDate] at h
  obtain ⟨d2, hd2, heq⟩ := List.mem_map.mp h
  have hdd : d2 = d := congrArg Prod.fst heq
  subst hdd
  have hg : g = ((prepareDfToGraph df et).filter fun r => r.event_date == d2).foldl
      (fun g r => addEdge g r.actor_id r.actor_id_2) emptyGraph :=
    (congrArg Prod.snd heq).symm
  have hd3 : d2 ∈ (prepareDfToGraph df et).map (·.event_date) :=
    (mem_firstKeys _ _).mp ((mem_sortLe _ _ _).mp hd2)
  obtain ⟨r0, hr0, hr0d⟩ := List.mem_map.mp hd3
  have hr0f : r0 ∈ (prepareDfToGraph df et).filter fun r => r.event_date == d2 :=
    List.mem_filter.mpr ⟨hr0, by rw [hr0d]; simp⟩
  have hmem := foldAddEdge_mem _ emptyGraph r0 hr0f
  rw [← hg] at hmem
  obtain ⟨rr1, rr2, _, _, _, hlt, hrw⟩ := (mem_prepare_iff df et r0).mp hr0
  have hne : r0.actor_id ≠ r0.actor_id_2 := by
    rw [hrw]
    exact strLt_ne hlt
  exact two_le_length_of_two_mem g.nodes r0.actor_id r0.actor_id_2 hmem.1 hmem.2 hne

/-- Closed instance of the C5 theorem on a concrete pipeline run. -/
theorem C5_asplDiameterSentinels_witness :
    ∃ m, calculateGraphMetrics ⟨["a", "b"], [("a", "b")]⟩ = some m ∧
      (((Graph.mk ["a", "b"] [("a", "b")]).isConnectedOpt = some true ∧
        (∃ q, averageShortestPathLength ⟨["a", "b"], [("a", "b")]⟩ = some q ∧
          m.average_shortest_path_length = Val.fin q) ∧
        (∃ k, (Graph.mk ["a", "b"] [("a", "b")]).eccDiameter = some k ∧
          m.diameter = Val.fin (k : ℚ))) ∨
       ((Graph.mk ["a", "b"] [("a", "b")]).isConnectedOpt = some false ∧
        m.average_shortest_path_length = Val.inf ∧ m.diameter = Val.inf)) :=
  C5_asplDiameterSentinels wCountRows none (some d0101) ⟨["a", "b"], [("a", "b")]⟩ (by decide)

/-! ### C3 -/

theorem joinCond_iff {r1 r2 : CountRow} :
    joinCond r1 r2 = true ↔
      (r1.event_date.isSome = true ∧ r1.event_date = r2.event_date ∧
        r1.object_id = r2.object_id) := by
  unfold joinCond
  simp [Bool.and_eq_true, beq_iff_eq, and_assoc]

theorem sum_map_add_const {α : Type} (c : ℕ) (g : α → ℕ) :
    ∀ l : List α, (l.map fun a => c + g a).sum = l.length * c + (l.map g).sum := by
  intro l
  induction l with
  | nil => simp
  | cons a t ih =>
    simp only [List.map_cons, List.sum_cons, List.length_cons, ih]
    ring

theorem sum_map_affine {α : Type} (m c : ℕ) (f : α → ℕ) :
    ∀ l : List α, (l.map fun a => m * f a + c).sum = m * (l.map f).sum + l.length * c := by
  intro l
  induction l with
  | nil => simp
  | cons a t ih =>
    simp only [List.map_cons, List.sum_cons, List.length_cons, ih]
    ring

theorem sum_map_zero {α : Type} (l : List α) : (l.map fun _ => 0).sum = 0 := by
  induction l with
  | nil => rfl
  | cons a t ih => simp [ih]

theorem charListLt_asymm :
    ∀ l1 l2 : List Char, charListLt l1 l2 = true → charListLt l2 l1 = true → False := by
  intro l1
  induction l1 with
  | nil =>
    intro l2 h1 h2
    match l2 with
    | [] => cases h1
    | c :: t => cases h2
  | cons c1 t1 ih =>
    intro l2 h1 h2
    match l2 with
    | [] => cases h1
    | c2 :: t2 =>
      rw [charListLt] at h1 h2
      simp only [Bool.or_eq_true, Bool.and_eq_true, decide_eq_true_iff, beq_iff_eq] at h1 h2
      rcases h1 with h1 | ⟨he1, h1⟩
      · rcases h2 with h2 | ⟨he2, h2⟩
        · exact absurd h2 (not_lt_of_gt h1)
        · subst he2
          exact absurd h1 (lt_irrefl _)
      · subst he1
        rcases h2 with h2 | ⟨_, h2⟩
        · exact absurd h2 (lt_irrefl _)
        · exact ih t2 h1 h2

theorem strLt_asymm {a b : String} (h1 : strLt a b = true) (h2 : strLt b a = true) : False :=
  charListLt_asymm a.data b.data h1 h2

theorem hasRow_iff (df : List CountRow) (d : Option Date) (a o : String) :
    hasRow df d a o = true ↔
      (df.filter fun r => r.event_date == d && r.actor_id == a && r.object_id == o) ≠ [] := by
  unfold hasRow
  rw [List.any_eq_true, ne_eq, List.filter_eq_nil_iff]
  push_neg
  constructor
  · rintro ⟨r, hr, hp⟩
    exact ⟨r, hr, hp⟩
  · rintro ⟨r, hr, hp⟩
    exact ⟨r, hr, hp⟩

theorem atMostOne_of_nodup :
    ∀ df : List CountRow,
      (df.map fun r => (r.event_date, r.actor_id, r.object_id)).Nodup →
      AtMostOnePerActorObjectDay df := by
  intro df
  induction df with
  | nil => intro _ d a o; simp
  | cons r t ih =>
    intro h d a o
    rw [List.map_cons, List.nodup_cons] at h
    by_cases hp : (r.event_date == d && r.actor_id == a && r.object_id == o) = true
    · have hkey : (r.event_date, r.actor_id, r.object_id) = (d, a, o) := by
        simp only [Bool.and_eq_true, beq_iff_eq] at hp
        rw [hp.1.1, hp.1.2, hp.2]
      have hempty : (t.filter fun x =>
          x.event_date == d && x.actor_id == a && x.object_id == o) = [] := by
        refine List.filter_eq_nil_iff.mpr ?_
        intro x hx hpx
        refine h.1 ?_
        simp only [Bool.and_eq_true, beq_iff_eq] at hpx
        refine List.mem_map.mpr ⟨x, hx, ?_⟩
        rw [hpx.1.1, hpx.1.2, hpx.2, hkey]
      rw [List.filter_cons, if_pos hp, hempty]
      simp
    · rw [List.filter_cons, if_neg hp]
      exact ih h.2 d a o

theorem pairSumAt_eq_double (df2 : List CountRow) (k : Option Date × String × String) :
    pairSumAt (createActorPairsByDateAndObject df2) k =
      (df2.map fun r1 => (df2.map fun r2 =>
        if joinCond r1 r2 = true ∧ strLt r1.actor_id r2.actor_id = true ∧
            (r1.event_date, r1.actor_id, r2.actor_id) = k
        then r1.daily_event_count + r2.daily_event_count else 0).sum).sum := by
  simp only [pairSumAt, createActorPairsByDateAndObject]
  rw [List.filter_map, List.map_map, List.filter_filter]
  rw [sum_map_ite_filter]
  rw [sum_map_flatMap]
  refine congrArg List.sum (List.map_congr_left ?_)
  intro r1 _
  rw [List.map_map]
  rw [sum_map_ite_filter]
  refine congrArg List.sum (List.map_congr_left ?_)
  intro r2 _
  by_cases h1 : joinCond r1 r2 = true
  · rw [if_pos h1]
    by_cases h2 : strLt r1.actor_id r2.actor_id = true
    · by_cases h3 : (r1.event_date, r1.actor_id, r2.actor_id) = k
      · rw [if_pos ⟨h1, h2, h3⟩]
        simp [Function.comp, pKey, h2, h3]
      · rw [if_neg (by rintro ⟨_, _, hc⟩; exact h3 hc)]
        simp only [Function.comp]
        rw [if_neg ?_]
        simp only [Bool.and_eq_true, beq_iff_eq, pKey]
        rintro ⟨hc, _⟩
        exact h3 hc
    · rw [if_neg (by rintro ⟨_, hc, _⟩; exact h2 hc)]
      simp only [Function.comp]
      rw [if_neg ?_]
      simp only [Bool.and_eq_true, beq_iff_eq, pKey]
      rintro ⟨_, hc⟩
      exact h2 hc
  · rw [if_neg h1, if_neg (by rintro ⟨hc, _⟩; exact h1 hc)]

theorem pairSumAt_eq_specWeight (df2 : List CountRow) (kd : Option Date) (ka kb : String)
    (hkd : kd.isSome = true) (hlt : strLt ka kb = true)
    (hone : AtMostOnePerActorObjectDay df2) :
    pairSumAt (createActorPairsByDateAndObject df2) (kd, ka, kb) =
      specPairWeight df2 kd ka kb := by
  rw [pairSumAt_eq_double]
  have hA : ∀ r1 r2 : CountRow,
      (if joinCond r1 r2 = true ∧ strLt r1.actor_id r2.actor_id = true ∧
          (r1.event_date, r1.actor_id, r2.actor_id) = (kd, ka, kb)
        then r1.daily_event_count + r2.daily_event_count else 0) =
      (if (r1.event_date == kd && r1.actor_id == ka) = true then
        (if (r2.event_date == kd && r2.actor_id == kb && r2.object_id == r1.object_id) = true
          then r1.daily_event_count + r2.daily_event_count else 0) else 0) := by
    intro r1 r2
    by_cases hc : joinCond r1 r2 = true ∧ strLt r1.actor_id r2.actor_id = true ∧
        (r1.event_date, r1.actor_id, r2.actor_id) = (kd, ka, kb)
    · rw [if_pos hc]
      obtain ⟨hj, hst, htrip⟩ := hc
      obtain ⟨hjs, hjd, hjo⟩ := joinCond_iff.mp hj
      simp only [Prod.mk.injEq] at htrip
      obtain ⟨h1d, h1a, h2a⟩ := htrip
      rw [if_pos (by simp [h1d, h1a]), if_pos (by simp [← hjd, h1d, h2a, hjo])]
    · rw [if_neg hc]
      by_cases hp1 : (r1.event_date == kd && r1.actor_id == ka) = true
      · by_cases hp2 :
            (r2.event_date == kd && r2.actor_id == kb && r2.object_id == r1.object_id) = true
        · exfalso
          apply hc
          simp only [Bool.and_eq_true, beq_iff_eq] at hp1 hp2
          refine ⟨joinCond_iff.mpr ⟨by rw [hp1.1]; exact hkd, by rw [hp1.1, hp2.1.1],
            hp2.2.symm⟩, by rw [hp1.2, hp2.1.2]; exact hlt, by simp [hp1.1, hp1.2, hp2.1.2]⟩
        · rw [if_pos hp1, if_neg hp2]
      · rw [if_neg hp1]
  have hcongrA : (df2.map fun r1 => (df2.map fun r2 =>
        if joinCond r1 r2 = true ∧ strLt r1.actor_id r2.actor_id = true ∧
            (r1.event_date, r1.actor_id, r2.actor_id) = (kd, ka, kb)
        then r1.daily_event_count + r2.daily_event_count else 0).sum).sum =
      (df2.map fun r1 =>
        if (r1.event_date == kd && r1.actor_id == ka) = true then
          (df2.filter fun r2 =>
            r2.event_date == kd && r2.actor_id == kb && r2.object_id == r1.object_id).length *
              r1.daily_event_count +
            ((df2.filter fun r2 =>
              r2.event_date == kd && r2.actor_id == kb && r2.object_id == r1.object_id).map
                (·.daily_event_count)).sum
        else 0).sum := by
    refine congrArg List.sum (List.map_congr_left ?_)
    intro r1 _
    rw [show (df2.map fun r2 =>
        if joinCond r1 r2 = true ∧ strLt r1.actor_id r2.actor_id = true ∧
            (r1.event_date, r1.actor_id, r2.actor_id) = (kd, ka, kb)
        then r1.daily_event_count + r2.daily_event_count else 0) =
        (df2.map fun r2 =>
          if (r1.event_date == kd && r1.actor_id == ka) = true then
            (if (r2.event_date == kd && r2.actor_id == kb &&
                r2.object_id == r1.object_id) = true
              then r1.daily_event_count + r2.daily_event_count else 0) else 0)
      from List.map_congr_left fun r2 _ => hA r1 r2]
    by_cases hp1 : (r1.event_date == kd && r1.actor_id == ka) = true
    · rw [if_pos hp1]
      rw [show (df2.map fun r2 =>
          if (r1.event_date == kd && r1.actor_id == ka) = true then
            (if (r2.event_date == kd && r2.actor_id == kb &&
                r2.object_id == r1.object_id) = true
              then r1.daily_event_count + r2.daily_event_count else 0) else 0) =
          (df2.map fun r2 =>
            if (r2.event_date == kd && r2.actor_id == kb &&
                r2.object_id == r1.object_id) = true
              then r1.daily_event_count + r2.daily_event_count else 0)
        from List.map_congr_left fun r2 _ => by rw [if_pos hp1]]
      rw [← sum_map_ite_filter]
      rw [sum_map_add_const]
    · rw [if_neg hp1]
      rw [show (df2.map fun r2 =>
          if (r1.event_date == kd && r1.actor_id == ka) = true then
            (if (r2.event_date == kd && r2.actor_id == kb &&
                r2.object_id == r1.object_id) = true
              then r1.daily_event_count + r2.daily_event_count else 0) else 0) =
          (df2.map fun _ => 0)
        from List.map_congr_left fun r2 _ => by rw [if_neg hp1]]
      exact sum_map_zero df2
  rw [hcongrA]
  rw [sum_partition_firstKeys (fun r : CountRow => r.object_id) _ df2.length df2 le_rfl]
  unfold specPairWeight
  refine congrArg List.sum (List.map_congr_left ?_)
  intro o ho
  have hGrp : ∀ r1 ∈ df2.filter fun a => a.object_id == o,
      (if (r1.event_date == kd && r1.actor_id == ka) = true then
        (df2.filter fun r2 =>
          r2.event_date == kd && r2.actor_id == kb && r2.object_id == r1.object_id).length *
            r1.daily_event_count +
          ((df2.filter fun r2 =>
            r2.event_date == kd && r2.actor_id == kb && r2.object_id == r1.object_id).map
              (·.daily_event_count)).sum
        else 0) =
      (if (r1.event_date == kd && r1.actor_id == ka) = true then
        (df2.filter fun r2 =>
          r2.event_date == kd && r2.actor_id == kb && r2.object_id == o).length *
            r1.daily_event_count +
          ((df2.filter fun r2 =>
            r2.event_date == kd && r2.actor_id == kb && r2.object_id == o).map
              (·.daily_event_count)).sum
        else 0) := by
    intro r1 hr1
    have ho1 : r1.object_id = o := by
      have := (List.mem_filter.mp hr1).2
      simpa using this
    rw [ho1]
  rw [List.map_congr_left hGrp]
  rw [← sum_map_ite_filter, List.filter_filter, sum_map_affine]
  by_cases hba : hasRow df2 kd ka o = true
  · by_cases hbb : hasRow df2 kd kb o = true
    · rw [if_pos ⟨hba, hbb⟩]
      have hlenA : (df2.filter fun a =>
          (a.event_date == kd && a.actor_id == ka) && a.object_id == o).length = 1 := by
        have h2 := hone kd ka o
        have h3 := (hasRow_iff df2 kd ka o).mp hba
        have h4 : 0 < (df2.filter fun r =>
            r.event_date == kd && r.actor_id == ka && r.object_id == o).length :=
          List.length_pos.mpr h3
        omega
      have hlenB : (df2.filter fun r2 =>
          r2.event_date == kd && r2.actor_id == kb && r2.object_id == o).length = 1 := by
        have h2 := hone kd kb o
        have h3 := (hasRow_iff df2 kd kb o).mp hbb
        have h4 : 0 < (df2.filter fun r =>
            r.event_date == kd && r.actor_id == kb && r.object_id == o).length :=
          List.length_pos.mpr h3
        omega
      unfold actorDailyCount
      rw [hlenA, hlenB, Nat.one_mul, Nat.one_mul]
    · rw [if_neg (by rintro ⟨_, hc⟩; exact hbb hc)]
      have hnilB : (df2.filter fun r2 =>
          r2.event_date == kd && r2.actor_id == kb && r2.object_id == o) = [] := by
        by_contra hne
        exact hbb ((hasRow_iff df2 kd kb o).mpr hne)
      rw [hnilB]
      simp
  · rw [if_neg (by rintro ⟨hc, _⟩; exact hba hc)]
    have hnilA : (df2.filter fun a =>
        (a.event_date == kd && a.actor_id == ka) && a.object_id == o) = [] := by
      by_contra hne
      exact hba ((hasRow_iff df2 kd ka o).mpr hne)
    rw [hnilA]
    simp

theorem keys_strLt_of_mem (df2 : List CountRow) (k : Option Date × String × String)
    (hk : k ∈ firstKeys ((createActorPairsByDateAndObject df2).map pKey)) :
    strLt k.2.1 k.2.2 = true ∧ k.1.isSome = true := by
  have hm := (mem_firstKeys _ _).mp hk
  obtain ⟨p, hp, hpk⟩ := List.mem_map.mp hm
  simp only [createActorPairsByDateAndObject] at hp
  obtain ⟨rr, hrr, hbuild⟩ := List.mem_map.mp hp
  obtain ⟨hjoined, hltb⟩ := List.mem_filter.mp hrr
  obtain ⟨r1, hr1, hin⟩ := List.mem_flatMap.mp hjoined
  obtain ⟨r2, hr2f, hpair⟩ := List.mem_map.mp hin
  obtain ⟨hr2m, hjc⟩ := List.mem_filter.mp hr2f
  subst hpair
  subst hbuild
  subst hpk
  exact ⟨hltb, (joinCond_spec hjc).1⟩

/-- C3 (amended): every aggregated pair row of `prepare_df_to_graph`
satisfies `actor_a < actor_b`, and no unordered actor pair appears in two
rows for the same date — both unconditionally; and, provided the (filtered)
input carries at most one row per (date, actor, object), as any
single-`object_type` daily-count table does, each row's weight equals the
sum over all shared (date, object) groups of the two actors' daily event
counts. -/
theorem C3_pairInvariants (df : List CountRow) (et : Option String) :
    (∀ r ∈ prepareDfToGraph df et, strLt r.actor_id r.actor_id_2 = true) ∧
    (prepareDfToGraph df et).Pairwise (fun r r' =>
      ¬(r.event_date = r'.event_date ∧
        ((r.actor_id = r'.actor_id ∧ r.actor_id_2 = r'.actor_id_2) ∨
         (r.actor_id = r'.actor_id_2 ∧ r.actor_id_2 = r'.actor_id)))) ∧
    (AtMostOnePerActorObjectDay (typeFilter et df) →
      ∀ r ∈ prepareDfToGraph df et,
        r.total_daily_event_count =
          specPairWeight (typeFilter et df) r.event_date r.actor_id r.actor_id_2) := by
  refine ⟨?_, ?_, ?_⟩
  · intro r hr
    obtain ⟨r1, r2, _, _, _, hlt, rfl⟩ := (mem_prepare_iff df et r).mp hr
    exact hlt
  · simp only [prepareDfToGraph]
    refine ((sortLe_perm _ _).pairwise_iff ?_).mpr ?_
    · intro a b hab hcond
      refine hab ⟨hcond.1.symm, ?_⟩
      rcases hcond.2 with ⟨h1, h2⟩ | ⟨h1, h2⟩
      · exact Or.inl ⟨h1.symm, h2.symm⟩
      · exact Or.inr ⟨h2.symm, h1.symm⟩
    · rw [List.pairwise_map]
      refine List.Pairwise.imp_of_mem ?_ (nodup_firstKeys _)
      intro k k' hk hk' hne hcond
      obtain ⟨hdate, hor⟩ := hcond
      rcases hor with ⟨ha, hb⟩ | ⟨ha, hb⟩
      · exact hne (Prod.ext_iff.mpr ⟨hdate, Prod.ext_iff.mpr ⟨ha, hb⟩⟩)
      · have h1 := (keys_strLt_of_mem _ k hk).1
        have h2 := (keys_strLt_of_mem _ k' hk').1
        rw [show k.2.1 = k'.2.2 from ha, show k.2.2 = k'.2.1 from hb] at h1
        exact absurd h2 fun h2' => strLt_asymm h2' h1
  · intro hone r hr
    obtain ⟨r1, r2, hm1, hm2, hjc, hlt, rfl⟩ := (mem_prepare_iff df et r).mp hr
    exact pairSumAt_eq_specWeight (typeFilter et df) r1.event_date r1.actor_id r2.actor_id
      (joinCond_spec hjc).1 hlt hone

/-- C3 counterexample: with both object types present an actor can carry an
issue row and a pr row for the same (date, object); the self-join pairs both
with the other actor's rows, so the emitted weight (4) differs from the sum
of the two actors' daily event counts over shared (date, object) groups (3). -/
theorem C3_pairInvariants_counterexample :
    ∃ r ∈ prepareDfToGraph wC3rows none,
      r.total_daily_event_count ≠
        specPairWeight (typeFilter none wC3rows) r.event_date r.actor_id r.actor_id_2 := by
  refine ⟨AggRow.mk (some d0101) ("a") ("b") 4, by decide, by decide⟩

/-- Closed instance of the C3 theorem on a concrete single-type table. -/
theorem C3_pairInvariants_witness :
    (∀ r ∈ prepareDfToGraph wCountRows none, strLt r.actor_id r.actor_id_2 = true) ∧
    (prepareDfToGraph wCountRows none).Pairwise (fun r r' =>
      ¬(r.event_date = r'.event_date ∧
        ((r.actor_id = r'.actor_id ∧ r.actor_id_2 = r'.actor_id_2) ∨
         (r.actor_id = r'.actor_id_2 ∧ r.actor_id_2 = r'.actor_id)))) ∧
    (∀ r ∈ prepareDfToGraph wCountRows none,
      r.total_daily_event_count =
        specPairWeight (typeFilter none wCountRows) r.event_date r.actor_id r.actor_id_2) :=
  ⟨(C3_pairInvariants wCountRows none).1, (C3_pairInvariants wCountRows none).2.1,
    (C3_pairInvariants wCountRows none).2.2 (atMostOne_of_nodup _ (by decide))⟩

/-! ### C4 -/

theorem pairSumAt_filter_inv (df2 : List CountRow) (qd : Option Date → Bool)
    (k : Option Date × String × String) (hq : qd k.1 = true) :
    pairSumAt (createActorPairsByDateAndObject (df2.filter fun x => qd x.event_date)) k =
      pairSumAt (createActorPairsByDateAndObject df2) k := by
  rw [pairSumAt_eq_double, pairSumAt_eq_double]
  have hterm2 : ∀ r1 r2 : CountRow, qd r2.event_date = false →
      (if joinCond r1 r2 = true ∧ strLt r1.actor_id r2.actor_id = true ∧
          (r1.event_date, r1.actor_id, r2.actor_id) = k
        then r1.daily_event_count + r2.daily_event_count else 0) = 0 := by
    intro r1 r2 hf
    rw [if_neg]
    rintro ⟨hj, _, htrip⟩
    have hd1 : r1.event_date = k.1 := congrArg Prod.fst htrip
    have hd2 : r2.event_date = k.1 := by
      rw [← (joinCond_iff.mp hj).2.1]
      exact hd1
    rw [hd2, hq] at hf
    cases hf
  have hterm1 : ∀ r1 : CountRow, qd r1.event_date = false → ∀ r2 : CountRow,
      (if joinCond r1 r2 = true ∧ strLt r1.actor_id r2.actor_id = true ∧
          (r1.event_date, r1.actor_id, r2.actor_id) = k
        then r1.daily_event_count + r2.daily_event_count else 0) = 0 := by
    intro r1 hf r2
    rw [if_neg]
    rintro ⟨_, _, htrip⟩
    have hd1 : r1.event_date = k.1 := congrArg Prod.fst htrip
    rw [hd1, hq] at hf
    cases hf
  have hinner : ∀ r1 : CountRow,
      ((df2.filter fun x => qd x.event_date).map fun r2 =>
        if joinCond r1 r2 = true ∧ strLt r1.actor_id r2.actor_id = true ∧
            (r1.event_date, r1.actor_id, r2.actor_id) = k
        then r1.daily_event_count + r2.daily_event_count else 0).sum =
      (df2.map fun r2 =>
        if joinCond r1 r2 = true ∧ strLt r1.actor_id r2.actor_id = true ∧
            (r1.event_date, r1.actor_id, r2.actor_id) = k
        then r1.daily_event_count + r2.daily_event_count else 0).sum := by
    intro r1
    exact sum_map_filter_eq_of_vanish _ _ df2 fun r2 _ hf => hterm2 r1 r2 hf
  rw [List.map_congr_left fun r1 _ => hinner r1]
  refine sum_map_filter_eq_of_vanish _ _ df2 ?_
  intro r1 _ hf
  rw [List.map_congr_left fun r2 _ => hterm1 r1 hf r2]
  exact sum_map_zero df2

/-- C4: pair aggregation is order independent: partition the daily-count
table by date into two subsets, aggregate each separately, and the merged
outputs contain exactly the rows of the aggregation of the full table. -/
theorem C4_orderIndependence (df : List CountRow) (p : Option Date → Bool)
    (et : Option String) (r : AggRow) :
    r ∈ prepareDfToGraph df et ↔
      (r ∈ prepareDfToGraph (df.filter fun x => p x.event_date) et ∨
       r ∈ prepareDfToGraph (df.filter fun x => !p x.event_date) et) := by
  constructor
  · intro hr
    obtain ⟨r1, r2, hm1, hm2, hjc, hlt, rfl⟩ := (mem_prepare_iff df et r).mp hr
    have hdd := (joinCond_spec hjc).2.1
    by_cases hp : p r1.event_date = true
    · left
      refine (mem_prepare_iff _ et _).mpr ⟨r1, r2, ?_, ?_, hjc, hlt, ?_⟩
      · rw [typeFilter_filter_comm]
        exact List.mem_filter.mpr ⟨hm1, hp⟩
      · rw [typeFilter_filter_comm]
        exact List.mem_filter.mpr ⟨hm2, by rw [← hdd]; exact hp⟩
      · rw [typeFilter_filter_comm,
          pairSumAt_filter_inv (typeFilter et df) p
            (r1.event_date, r1.actor_id, r2.actor_id) hp]
    · right
      have hp' : (!p r1.event_date) = true := by
        simp only [Bool.not_eq_true'] at hp ⊢
        simpa using hp
      refine (mem_prepare_iff _ et _).mpr ⟨r1, r2, ?_, ?_, hjc, hlt, ?_⟩
      · rw [typeFilter_filter_comm]
        exact List.mem_filter.mpr ⟨hm1, hp'⟩
      · rw [typeFilter_filter_comm]
        exact List.mem_filter.mpr ⟨hm2, by rw [← hdd]; exact hp'⟩
      · rw [typeFilter_filter_comm,
          pairSumAt_filter_inv (typeFilter et df) (fun d => !p d)
            (r1.event_date, r1.actor_id, r2.actor_id) hp']
  · intro hr
    rcases hr with hr | hr
    · obtain ⟨r1, r2, hm1, hm2, hjc, hlt, rfl⟩ := (mem_prepare_iff _ et r).mp hr
      rw [typeFilter_filter_comm] at hm1 hm2
      have hp1 : p r1.event_date = true := (List.mem_filter.mp hm1).2
      refine (mem_prepare_iff df et _).mpr ⟨r1, r2, (List.mem_filter.mp hm1).1,
        (List.mem_filter.mp hm2).1, hjc, hlt, ?_⟩
      rw [typeFilter_filter_comm,
        pairSumAt_filter_inv (typeFilter et df) p
          (r1.event_date, r1.actor_id, r2.actor_id) hp1]
    · obtain ⟨r1, r2, hm1, hm2, hjc, hlt, rfl⟩ := (mem_prepare_iff _ et r).mp hr
      rw [typeFilter_filter_comm] at hm1 hm2
      have hp1 : (!p r1.event_date) = true := (List.mem_filter.mp hm1).2
      refine (mem_prepare_iff df et _).mpr ⟨r1, r2, (List.mem_filter.mp hm1).1,
        (List.mem_filter.mp hm2).1, hjc, hlt, ?_⟩
      rw [typeFilter_filter_comm,
        pairSumAt_filter_inv (typeFilter et df) (fun d => !p d)
          (r1.event_date, r1.actor_id, r2.actor_id) hp1]

/-- Closed instance of the C4 theorem on a concrete table and partition. -/
theorem C4_orderIndependence_witness :
    AggRow.mk (some d0101) ("a") ("b") 5 ∈ prepareDfToGraph wCountRows none ↔
      (AggRow.mk (some d0101) ("a") ("b") 5 ∈
        prepareDfToGraph (wCountRows.filter fun x => optDateLe x.event_date (some d0101)) none ∨
       AggRow.mk (some d0101) ("a") ("b") 5 ∈
        prepareDfToGraph (wCountRows.filter fun x => !optDateLe x.event_date (some d0101)) none) :=
  C4_orderIndependence wCountRows (fun d => optDateLe d (some d0101)) none
    (AggRow.mk (some d0101) ("a") ("b") 5)

end GHA
